import Mathlib

/-!
Verification development for the MZHV hypervisor core (MZHVDriver).

The definitions below are a shallow embedding of the C sources:
  - ept.c      : EPT entries, page splitting, EPT_changeMapping, MTRR resolution
  - vmexit.c   : eptViolationHandler, vmCallMapPage, vmCallUnmapPage
  - context.h  : per-core mapping table and split arena (32 slots each)

Modelling conventions:
  - Machine integers are Nat; bitfield stores truncate with explicit `% 2^w`
    where the C bitfield is narrower than the stored value
    (EPT_PtE.pageFrameNumber is a 40-bit field).
  - The four-level EPT walk of EPT_changeMapping only ever reads and writes
    the PD entry selected by the pml4/pdpt/pd indices of the source address
    (directory levels are never mutated after setup), so the EPT of a core is
    modelled as a total function from the combined directory index
    `addr % 2^48 / 2^21` to PD entries.
  - NTSTATUS-returning fallible operations return Option (none = failure);
    in the C code every failure path returns before any mutation, which the
    Option encoding makes explicit.
  - KeBugCheck (fatal stop) is modelled as Option.none of the whole handler.
-/

namespace MZHV

/-- Page-table index of a guest-physical address: bits 12..20 (EPT_Address.ptEntry). -/
def ptIndex (addr : Nat) : Nat := addr / 2 ^ 12 % 512

/-- Combined directory index pml4Entry/pdptEntry/pdEntry of an address:
bits 21..47 of EPT_Address.  Two addresses select the same PD entry iff these
27 bits agree. -/
def regionIndex (addr : Nat) : Nat := addr % 2 ^ 48 / 2 ^ 21

/-- Page offset of an address (EPT_Address.offset, bits 0..11). -/
def pageOffset (addr : Nat) : Nat := addr % 2 ^ 12

/-- Page base of an address: the address with EPT_Address.offset cleared. -/
def pageBase (addr : Nat) : Nat := addr / 2 ^ 12 * 2 ^ 12

/-- EPT 4 KiB leaf (EPT_PtE of ept.h), restricted to the fields the program
reads or writes: permissions, memory type and the 40-bit frame field. -/
structure EPT_PtE where
  readAccess : Bool
  writeAccess : Bool
  fetchAccess : Bool
  memoryType : Nat
  pageFrameNumber : Nat
deriving DecidableEq, Repr, Inhabited

/-- EPT PD entry (EPT_PdE of ept.h): tagged on the large-page bit.
A `largePage` is a 2 MiB leaf (EPT_PdE2MB); a `standard` entry is a directory
entry (EPT_PagingStructure) whose frame points at a 512-entry page table,
modelled here as the table itself. -/
inductive EPT_PdE where
  | largePage (readAccess writeAccess fetchAccess : Bool) (memoryType : Nat)
      (pageFrameNumber : Nat)
  | standard (readAccess writeAccess fetchAccess : Bool) (pt : List EPT_PtE)
deriving DecidableEq, Repr

/-- One record of the per-core mapping table (Context_EptChangedMapping). -/
structure Context_EptChangedMapping where
  guestAddress : Nat
  hostRwAddress : Nat
  hostFetchAddress : Nat
  valid : Bool
deriving DecidableEq, Repr

/-- The all-zero mapping record; invalid slots produced by initialization and
by vmCallUnmapPage hold this value. -/
def zeroMapping : Context_EptChangedMapping :=
  { guestAddress := 0, hostRwAddress := 0, hostFetchAddress := 0, valid := false }

instance : Inhabited Context_EptChangedMapping := ⟨zeroMapping⟩

/-- Per-core state relevant to the mapping engine (Context_LogicalCore
restricted to eptMappingData and the EPT reachable from eptp): the EPT PD
layer indexed by `regionIndex`, the split-arena counter noOfUsedSplits, and
the changed-mappings table. -/
structure Core where
  ept : Nat → EPT_PdE
  noOfUsedSplits : Nat
  changedMappings : List Context_EptChangedMapping

/-- Number of slots of the split arena (CONTEXT_EPT_NO_SPLITS, context.h). -/
def CONTEXT_EPT_NO_SPLITS : Nat := 32

/-- Number of slots of the mapping table (CONTEXT_EPT_MAX_MAPPINGS, context.h). -/
def CONTEXT_EPT_MAX_MAPPINGS : Nat := 32

/-- Entries of the page table produced by splitPage (ept.c): entry i has
read = write = fetch = 1, the parent leaf's memory type, and frame
512 * parentFrame + i (the store into the 40-bit EPT_PtE frame field
truncates, hence the explicit modulus). -/
def splitPtEntries (memoryType parentFrame : Nat) : List EPT_PtE :=
  (List.range 512).map fun i =>
    { readAccess := true, writeAccess := true, fetchAccess := true,
      memoryType := memoryType,
      pageFrameNumber := (512 * parentFrame + i) % 2 ^ 40 }

/-- Overwrite the PD entry at region index ri. -/
def updateRegion (ept : Nat → EPT_PdE) (ri : Nat) (e : EPT_PdE) : Nat → EPT_PdE :=
  fun r => if r = ri then e else ept r

/-- Embedding of splitPage (ept.c): fails when the arena counter has reached
CONTEXT_EPT_NO_SPLITS, before any mutation; otherwise consumes one arena slot
and replaces the large-page PD entry at region `ri` with a directory entry
pointing at the freshly filled page table.  The function is only ever called
on a large-page entry (EPT_changeMapping checks isLargePage first); the
standard branch is unreachable in the program and maps to failure. -/
def splitPage (c : Core) (ri : Nat) : Option Core :=
  if CONTEXT_EPT_NO_SPLITS ≤ c.noOfUsedSplits then
    none
  else
    match c.ept ri with
    | .largePage _ _ _ memoryType parentFrame =>
        some { c with
          noOfUsedSplits := c.noOfUsedSplits + 1,
          ept := updateRegion c.ept ri
            (.standard true true true (splitPtEntries memoryType parentFrame)) }
    | .standard _ _ _ _ => none

/-- Embedding of EPT_changeMapping (ept.c): walk to the PD entry of
sourceAddress, split it if it is a 2 MiB leaf, then overwrite the 4 KiB leaf
selected by ptEntry with frame = targetAddress's 4 KiB frame number
(truncated to the 40-bit field), read = write = rw, fetch = fetch.  All other
leaf fields (in particular the memory type) are preserved. -/
def EPT_changeMapping (c : Core) (sourceAddress targetAddress : Nat)
    (rw fetch : Bool) : Option Core :=
  let ri := regionIndex sourceAddress
  let afterSplit : Option Core :=
    match c.ept ri with
    | .largePage _ _ _ _ _ => splitPage c ri
    | .standard _ _ _ _ => some c
  match afterSplit with
  | none => none
  | some c1 =>
    match c1.ept ri with
    | .standard r w x pt =>
        let i := ptIndex sourceAddress
        let e := pt.getD i default
        let pt2 := pt.set i
          { e with
            pageFrameNumber := targetAddress / 2 ^ 12 % 2 ^ 40,
            readAccess := rw, writeAccess := rw, fetchAccess := fetch }
        some { c1 with ept := updateRegion c1.ept ri (.standard r w x pt2) }
    | .largePage _ _ _ _ _ => none

/-- The 4 KiB leaf a guest-physical address resolves to, when its PD entry
has been split. -/
def pteAt (c : Core) (addr : Nat) : Option EPT_PtE :=
  match c.ept (regionIndex addr) with
  | .standard _ _ _ pt => pt.get? (ptIndex addr)
  | .largePage _ _ _ _ _ => none

/-- Result status of a VMCALL service routine, returned to the guest in RAX
(STATUS_SUCCESS / STATUS_UNSUCCESSFUL or a forwarded NTSTATUS failure). -/
inductive Status where
  | success
  | unsuccessful
deriving DecidableEq, Repr

/-- Collision predicate of the rejection loop of vmCallMapPage (vmexit.c,
lines 273-286): a valid record collides with the request (g, r, f) when its
guest key, rw-target or fetch-target equals g, or its guest key equals r or
f. -/
def Context_EptChangedMapping.collidesWith (m : Context_EptChangedMapping)
    (g r f : Nat) : Bool :=
  m.valid &&
    (m.guestAddress == g || m.hostFetchAddress == g || m.hostRwAddress == g ||
      m.guestAddress == r || m.guestAddress == f)

/-- Index of the first invalid slot of the mapping table (the while loop of
vmCallMapPage, lines 288-292); none when every slot is valid. -/
def firstInvalidIdx : List Context_EptChangedMapping → Option Nat
  | [] => none
  | m :: rest =>
      if m.valid then (firstInvalidIdx rest).map (· + 1) else some 0

/-- Index of the first valid record whose guest key equals g (the search
loops of vmCallUnmapPage and eptViolationHandler). -/
def findMappingIdx (g : Nat) : List Context_EptChangedMapping → Option Nat
  | [] => none
  | m :: rest =>
      if m.valid ∧ m.guestAddress = g then some 0
      else (findMappingIdx g rest).map (· + 1)

/-- The first valid record whose guest key equals g. -/
def findMapping (g : Nat) (l : List Context_EptChangedMapping) :
    Option Context_EptChangedMapping :=
  (findMappingIdx g l).map fun i => l.getD i default

/-- Embedding of vmCallMapPage (vmexit.c): install a split mapping.
Checks, in source order: page alignment of the three addresses; the
collision loop; the first-invalid-slot search; then EPT_changeMapping to the
dormant state frame = guestAddress, read = write = fetch = 0; finally the
record is stored in the selected slot.  Every failure path returns before
any mutation. -/
def vmCallMapPage (c : Core) (guestAddress hostRwAddress hostFetchAddress : Nat) :
    Status × Core :=
  if pageOffset guestAddress ≠ 0 ∨ pageOffset hostRwAddress ≠ 0 ∨
      pageOffset hostFetchAddress ≠ 0 then
    (.unsuccessful, c)
  else if c.changedMappings.any
      (fun m => m.collidesWith guestAddress hostRwAddress hostFetchAddress) then
    (.unsuccessful, c)
  else
    match firstInvalidIdx c.changedMappings with
    | none => (.unsuccessful, c)
    | some selectedIndex =>
      match EPT_changeMapping c guestAddress guestAddress false false with
      | none => (.unsuccessful, c)
      | some c1 =>
          (.success,
            { c1 with
              changedMappings := c1.changedMappings.set selectedIndex
                { guestAddress := guestAddress, hostRwAddress := hostRwAddress,
                  hostFetchAddress := hostFetchAddress, valid := true } })

/-- Embedding of vmCallUnmapPage (vmexit.c): find the valid record with the
given guest key (fail otherwise), restore the leaf to identity
frame = guestAddress with read = write = fetch = 1 (forwarding an
EPT_changeMapping failure), then zero the record. -/
def vmCallUnmapPage (c : Core) (guestAddress : Nat) : Status × Core :=
  match findMappingIdx guestAddress c.changedMappings with
  | none => (.unsuccessful, c)
  | some foundIndex =>
    match EPT_changeMapping c guestAddress guestAddress true true with
    | none => (.unsuccessful, c)
    | some c1 =>
        (.success,
          { c1 with
            changedMappings := c1.changedMappings.set foundIndex zeroMapping })

/-- Embedding of eptViolationHandler (vmexit.c): clear the offset of the
faulting guest-physical address, look up the first valid matching record
(KeBugCheck, i.e. none, when there is none), then flip the leaf according to
the access kind of the exit qualification; an access that is neither
data-read, data-write nor instruction-fetch is also a KeBugCheck.  The
status of the EPT_changeMapping calls is ignored by the handler, so a failed
change leaves the state unchanged (getD). -/
def eptViolationHandler (c : Core) (dataRead dataWrite instructionFetch : Bool)
    (guestPhysicalAddress : Nat) : Option Core :=
  match findMapping (pageBase guestPhysicalAddress) c.changedMappings with
  | none => none
  | some m =>
      if dataRead || dataWrite then
        some ((EPT_changeMapping c m.guestAddress m.hostRwAddress true false).getD c)
      else if instructionFetch then
        some ((EPT_changeMapping c m.guestAddress m.hostFetchAddress false true).getD c)
      else none

/-- Initial contents of the mapping table: the per-core context is
zero-initialized, so all CONTEXT_EPT_MAX_MAPPINGS slots hold the zero
record. -/
def initialMappings : List Context_EptChangedMapping :=
  List.replicate CONTEXT_EPT_MAX_MAPPINGS zeroMapping

/-- Identity EPT with 2 MiB write-back leaves, as a representative of the
state EPT_setupDefaltStructures builds (the invariants proved below do not
depend on the initial memory types). -/
def identityEpt : Nat → EPT_PdE :=
  fun ri => .largePage true true true 6 ri

/-- A fresh per-core state: identity EPT, empty split arena, zeroed table. -/
def initialCore : Core :=
  { ept := identityEpt, noOfUsedSplits := 0, changedMappings := initialMappings }

/-- One mapping-engine operation of the per-core VM-exit dispatcher. -/
inductive Step where
  | map (guestAddress hostRwAddress hostFetchAddress : Nat)
  | unmap (guestAddress : Nat)
  | violate (dataRead dataWrite instructionFetch : Bool)
      (guestPhysicalAddress : Nat)

/-- Execute one step on a core; none models a KeBugCheck (the VMCALL
services never bug-check: they report failure in RAX and keep running). -/
def execStep (c : Core) : Step → Option Core
  | .map g r f => some (vmCallMapPage c g r f).2
  | .unmap g => some (vmCallUnmapPage c g).2
  | .violate dr dw xf addr => eptViolationHandler c dr dw xf addr

/-- Per-core states reachable from a fresh mapping table by install, remove
and EPT-violation handling.  The EPT layout and split counter of the start
state are arbitrary, which only strengthens the invariants proved below. -/
inductive Reachable : Core → Prop where
  | init (ept0 : Nat → EPT_PdE) (splits0 : Nat) :
      Reachable { ept := ept0, noOfUsedSplits := splits0,
                  changedMappings := initialMappings }
  | step {c c1 : Core} (s : Step) :
      Reachable c → execStep c s = some c1 → Reachable c1

/-! MTRR resolver (ept.c, fillVariableMtrrsCache and searchVariableMtrrs). -/

/-- One cached variable MTRR (EPT_VariableMtrr, ept.h). -/
structure EPT_VariableMtrr where
  baseAddress : Nat
  length : Nat
  memoryType : Nat
  valid : Bool
deriving DecidableEq, Repr

/-- The zeroed cache slot: slots skipped by fillVariableMtrrsCache keep the
zero initializer of the variableMtrrs array. -/
def zeroVariableMtrr : EPT_VariableMtrr :=
  { baseAddress := 0, length := 0, memoryType := 0, valid := false }

/-- Bit-scan-forward with explicit fuel: the index of the least-significant
set bit of n among bits startBit .. startBit+fuel-1. -/
def bsfAux (n : Nat) : Nat → Nat → Option Nat
  | _, 0 => none
  | startBit, fuel + 1 =>
      if n.testBit startBit then some startBit
      else bsfAux n (startBit + 1) fuel

/-- Embedding of _BitScanForward64: index of the least-significant set bit
of a 64-bit value, none when the value is zero. -/
def bsf64 (n : Nat) : Option Nat := bsfAux n 0 64

/-- Embedding of the loop body of fillVariableMtrrsCache (ept.c) for one
variable MTRR, from the raw 64-bit base and mask MSR values.  A register
whose mask valid bit (bit 11) is clear, or whose mask frame portion
(bits 12..63) is zero, is skipped and its cache slot keeps the zero record.
Otherwise the slot records base = physBase assembled into an address,
length = 1 <<< (bsf of the mask frame portion assembled into an address),
the base MSR's memory type byte, and valid = TRUE. -/
def cacheVariableMtrr (physbaseBits physmaskBits : Nat) : EPT_VariableMtrr :=
  if physmaskBits / 2 ^ 11 % 2 ≠ 1 then zeroVariableMtrr
  else
    match bsf64 (physmaskBits / 2 ^ 12 % 2 ^ 52 * 2 ^ 12) with
    | none => zeroVariableMtrr
    | some firstOneIndex =>
        { baseAddress := physbaseBits / 2 ^ 12 % 2 ^ 52 * 2 ^ 12,
          length := 2 ^ firstOneIndex,
          memoryType := physbaseBits % 2 ^ 8,
          valid := true }

/-- Embedding of fillVariableMtrrsCache (ept.c): cache every variable MTRR
from its (base MSR, mask MSR) pair. -/
def fillVariableMtrrsCache (msrs : List (Nat × Nat)) : List EPT_VariableMtrr :=
  msrs.map fun p => cacheVariableMtrr p.1 p.2

/-- Memory types found while scanning the variable MTRRs
(EPT_FoundMemoryTypes, ept.h). -/
structure EPT_FoundMemoryTypes where
  uncacheable : Bool
  writeCombining : Bool
  writeThrough : Bool
  writeProtected : Bool
  writeback : Bool
deriving DecidableEq, Repr

/-- Does a cached variable MTRR cover the given physical address?  This is
the skip logic of the scan loop of searchVariableMtrrs: the record is valid
and the address lies in [base, base + length). -/
def EPT_VariableMtrr.covers (m : EPT_VariableMtrr) (addr : Nat) : Prop :=
  m.valid = true ∧ m.baseAddress ≤ addr ∧ addr < m.baseAddress + m.length

instance (m : EPT_VariableMtrr) (addr : Nat) : Decidable (m.covers addr) := by
  unfold EPT_VariableMtrr.covers; infer_instance

/-- The scan loop of searchVariableMtrrs (ept.c, lines 425-471): accumulate
the found-types bits over the MTRRs that cover the address; a covering MTRR
whose memory type is none of UC/WC/WT/WP/WB aborts with
IA32_MTRR_MEMORY_TYPE_ERR (modelled as none). -/
def collectFoundTypes (addr : Nat) :
    List EPT_VariableMtrr → EPT_FoundMemoryTypes → Option EPT_FoundMemoryTypes
  | [], found => some found
  | m :: rest, found =>
      if m.covers addr then
        if m.memoryType = 0 then
          collectFoundTypes addr rest { found with uncacheable := true }
        else if m.memoryType = 1 then
          collectFoundTypes addr rest { found with writeCombining := true }
        else if m.memoryType = 4 then
          collectFoundTypes addr rest { found with writeThrough := true }
        else if m.memoryType = 5 then
          collectFoundTypes addr rest { found with writeProtected := true }
        else if m.memoryType = 6 then
          collectFoundTypes addr rest { found with writeback := true }
        else none
      else collectFoundTypes addr rest found

/-- Number of distinct memory types found (the sum of the five bits computed
at lines 473 and 497 of ept.c). -/
def foundCount (f : EPT_FoundMemoryTypes) : Nat :=
  (if f.uncacheable then 1 else 0) + (if f.writeCombining then 1 else 0) +
    (if f.writeThrough then 1 else 0) + (if f.writeProtected then 1 else 0) +
    (if f.writeback then 1 else 0)

/-- The single-hit block of searchVariableMtrrs (lines 473-485): when
exactly one type was found, return it. -/
def singleFoundType (f : EPT_FoundMemoryTypes) : Option Nat :=
  if f.uncacheable then some 0
  else if f.writeCombining then some 1
  else if f.writeThrough then some 4
  else if f.writeProtected then some 5
  else if f.writeback then some 6
  else none

/-- Post-processing of the found-types bits (searchVariableMtrrs,
lines 473-502), in source order: single hit returns it; UC wins any mix;
exactly {WT, WB} gives WT; any other non-empty mix is
IA32_MTRR_MEMORY_TYPE_ERR (0xFFFF); no hit gives the default type. -/
def resolveFoundTypes (f : EPT_FoundMemoryTypes) (defaultMemoryType : Nat) : Nat :=
  match (if foundCount f = 1 then singleFoundType f else none) with
  | some t => t
  | none =>
      if f.uncacheable then 0
      else if f.writeThrough = true ∧ f.writeback = true ∧
          f.uncacheable = false ∧ f.writeCombining = false ∧
          f.writeProtected = false then 4
      else if foundCount f ≠ 0 then 65535
      else defaultMemoryType

/-- Embedding of searchVariableMtrrs (ept.c): resolve the memory type of a
physical address over the cached variable MTRRs, 65535
(IA32_MTRR_MEMORY_TYPE_ERR) on an invalid configuration. -/
def searchVariableMtrrs (variableMtrrs : List EPT_VariableMtrr)
    (defaultMemoryType physicalAddress : Nat) : Nat :=
  match collectFoundTypes physicalAddress variableMtrrs
      { uncacheable := false, writeCombining := false, writeThrough := false,
        writeProtected := false, writeback := false } with
  | none => 65535
  | some f => resolveFoundTypes f defaultMemoryType

/-! Helper lemmas about lists. -/

theorem getD_set_self {α : Type} (l : List α) (i : Nat) (v d : α)
    (h : i < l.length) : (l.set i v).getD i d = v := by
  simp [List.getD_eq_getElem?_getD, List.getElem?_set_self h]

theorem getD_set_ne {α : Type} (l : List α) {i j : Nat} (v d : α)
    (h : i ≠ j) : (l.set i v).getD j d = l.getD j d := by
  simp [List.getD_eq_getElem?_getD, List.getElem?_set_ne h]

theorem set_getD_self {α : Type} (l : List α) (i : Nat) (d : α) :
    l.set i (l.getD i d) = l := by
  induction l generalizing i with
  | nil => rfl
  | cons a t ih =>
      cases i with
      | zero => rfl
      | succ n => simpa [List.set, List.getD] using ih n

theorem getD_mem {α : Type} (l : List α) (i : Nat) (d : α)
    (h : i < l.length) : l.getD i d ∈ l := by
  rw [List.getD_eq_getElem?_getD, List.getElem?_eq_getElem h]
  exact List.getElem_mem h

/-! Characterization of the slot-search loops. -/

theorem firstInvalidIdx_spec {l : List Context_EptChangedMapping} {i : Nat}
    (h : firstInvalidIdx l = some i) :
    i < l.length ∧ (l.getD i default).valid = false ∧
      ∀ j, j < i → (l.getD j default).valid = true := by
  induction l generalizing i with
  | nil => simp [firstInvalidIdx] at h
  | cons m rest ih =>
      by_cases hv : m.valid
      · rw [firstInvalidIdx, if_pos hv, Option.map_eq_some'] at h
        obtain ⟨i0, hi0, rfl⟩ := h
        obtain ⟨h1, h2, h3⟩ := ih hi0
        refine ⟨by simpa using h1, by simpa using h2, ?_⟩
        intro j hj
        cases j with
        | zero => simpa using hv
        | succ j0 => simpa using h3 j0 (by omega)
      · rw [firstInvalidIdx, if_neg hv] at h
        injection h with h
        subst h
        refine ⟨by simp, by simpa using hv, ?_⟩
        intro j hj
        omega

theorem firstInvalidIdx_isSome_of_invalid {l : List Context_EptChangedMapping}
    {m : Context_EptChangedMapping} (hm : m ∈ l) (hv : m.valid = false) :
    (firstInvalidIdx l).isSome := by
  induction l with
  | nil => cases hm
  | cons a rest ih =>
      by_cases ha : a.valid
      · rcases List.mem_cons.mp hm with rfl | hmem
        · rw [ha] at hv; cases hv
        · simp only [firstInvalidIdx, if_pos ha]
          have := ih hmem
          cases h : firstInvalidIdx rest with
          | none => rw [h] at this; cases this
          | some k => simp
      · simp [firstInvalidIdx, if_neg ha]

theorem findMappingIdx_spec {g : Nat} {l : List Context_EptChangedMapping}
    {i : Nat} (h : findMappingIdx g l = some i) :
    i < l.length ∧ (l.getD i default).valid = true ∧
      (l.getD i default).guestAddress = g ∧
      ∀ j, j < i → ¬((l.getD j default).valid = true ∧
        (l.getD j default).guestAddress = g) := by
  induction l generalizing i with
  | nil => simp [findMappingIdx] at h
  | cons m rest ih =>
      by_cases hv : m.valid = true ∧ m.guestAddress = g
      · rw [findMappingIdx, if_pos hv] at h
        injection h with h
        subst h
        exact ⟨by simp, by simpa using hv.1, by simpa using hv.2, by omega⟩
      · rw [findMappingIdx, if_neg hv, Option.map_eq_some'] at h
        obtain ⟨i0, hi0, rfl⟩ := h
        obtain ⟨h1, h2, h3, h4⟩ := ih hi0
        refine ⟨by simpa using h1, by simpa using h2, by simpa using h3, ?_⟩
        intro j hj
        cases j with
        | zero => simpa using hv
        | succ j0 => simpa using h4 j0 (by omega)

theorem findMappingIdx_eq_some {g : Nat} {l : List Context_EptChangedMapping}
    {i : Nat} (hi : i < l.length)
    (hmatch : (l.getD i default).valid = true ∧
      (l.getD i default).guestAddress = g)
    (hbefore : ∀ j, j < i → ¬((l.getD j default).valid = true ∧
      (l.getD j default).guestAddress = g)) :
    findMappingIdx g l = some i := by
  induction l generalizing i with
  | nil => simp at hi
  | cons m rest ih =>
      cases i with
      | zero =>
          simp only [List.getD_cons_zero] at hmatch
          simp [findMappingIdx, hmatch]
      | succ i0 =>
          have hm0 : ¬(m.valid = true ∧ m.guestAddress = g) := by
            simpa using hbefore 0 (by omega)
          simp only [findMappingIdx, if_neg hm0]
          rw [ih (by simpa using hi) (by simpa using hmatch)
            (fun j hj => by simpa using hbefore (j + 1) (by omega))]
          rfl

theorem findMappingIdx_none_iff {g : Nat} {l : List Context_EptChangedMapping} :
    findMappingIdx g l = none ↔
      ∀ m ∈ l, ¬(m.valid = true ∧ m.guestAddress = g) := by
  induction l with
  | nil => simp [findMappingIdx]
  | cons m rest ih =>
      by_cases hv : m.valid = true ∧ m.guestAddress = g
      · simp [findMappingIdx, if_pos hv, hv]
      · rw [findMappingIdx, if_neg hv]
        simp only [Option.map_eq_none', List.mem_cons]
        constructor
        · intro h m2 hm2
          rcases hm2 with rfl | hm2
          · exact hv
          · exact ih.mp h m2 hm2
        · intro h
          exact ih.mpr fun m2 hm2 => h m2 (Or.inr hm2)

/-! Effect lemmas for EPT_changeMapping. -/

/-- The leaf value EPT_changeMapping writes: the previous leaf with a new
frame and permissions, memory type preserved. -/
def changedLeaf (pt : List EPT_PtE) (i : Nat) (targetAddress : Nat)
    (rw fetch : Bool) : EPT_PtE :=
  { pt.getD i default with
    pageFrameNumber := targetAddress / 2 ^ 12 % 2 ^ 40,
    readAccess := rw, writeAccess := rw, fetchAccess := fetch }

theorem updateRegion_self (ept : Nat → EPT_PdE) (ri : Nat) (e : EPT_PdE) :
    updateRegion ept ri e ri = e := by
  simp [updateRegion]

theorem updateRegion_ne (ept : Nat → EPT_PdE) {ri r2 : Nat} (e : EPT_PdE)
    (h : r2 ≠ ri) : updateRegion ept ri e r2 = ept r2 := by
  simp [updateRegion, if_neg h]

theorem updateRegion_updateRegion (ept : Nat → EPT_PdE) (ri : Nat)
    (e1 e2 : EPT_PdE) :
    updateRegion (updateRegion ept ri e1) ri e2 = updateRegion ept ri e2 := by
  funext r2
  by_cases h : r2 = ri <;> simp [updateRegion, h]

theorem changeMapping_of_standard {c : Core} {s t : Nat} {rw fe : Bool}
    {r w x : Bool} {pt : List EPT_PtE}
    (h : c.ept (regionIndex s) = .standard r w x pt) :
    EPT_changeMapping c s t rw fe = some
      { c with ept := (updateRegion c.ept (regionIndex s)
          (.standard r w x
            (pt.set (ptIndex s) (changedLeaf pt (ptIndex s) t rw fe)))) } := by
  unfold EPT_changeMapping
  simp only [h, changedLeaf]

theorem changeMapping_of_large {c : Core} {s t : Nat} {rw fe : Bool}
    {r w x : Bool} {mt p : Nat}
    (h : c.ept (regionIndex s) = .largePage r w x mt p)
    (hsplits : c.noOfUsedSplits < CONTEXT_EPT_NO_SPLITS) :
    EPT_changeMapping c s t rw fe = some
      { ept := (updateRegion c.ept (regionIndex s)
          (.standard true true true ((splitPtEntries mt p).set (ptIndex s)
            (changedLeaf (splitPtEntries mt p) (ptIndex s) t rw fe)))),
        noOfUsedSplits := c.noOfUsedSplits + 1,
        changedMappings := c.changedMappings } := by
  unfold EPT_changeMapping splitPage
  simp only [h, if_neg (by omega : ¬CONTEXT_EPT_NO_SPLITS ≤ c.noOfUsedSplits)]
  simp only [updateRegion_self, changedLeaf, updateRegion_updateRegion]

theorem changeMapping_of_large_full {c : Core} {s t : Nat} {rw fe : Bool}
    {r w x : Bool} {mt p : Nat}
    (h : c.ept (regionIndex s) = .largePage r w x mt p)
    (hsplits : CONTEXT_EPT_NO_SPLITS ≤ c.noOfUsedSplits) :
    EPT_changeMapping c s t rw fe = none := by
  unfold EPT_changeMapping splitPage
  simp [h, if_pos hsplits]

theorem changeMapping_some_parts {c c1 : Core} {s t : Nat} {rw fe : Bool}
    (h : EPT_changeMapping c s t rw fe = some c1) :
    c1.changedMappings = c.changedMappings ∧
      (∀ r2, r2 ≠ regionIndex s → c1.ept r2 = c.ept r2) ∧
      (∃ r w x pt, c1.ept (regionIndex s) = .standard r w x pt) := by
  rcases hpde : c.ept (regionIndex s) with ⟨r, w, x, mt, p⟩ | ⟨r, w, x, pt⟩
  · by_cases hsp : c.noOfUsedSplits < CONTEXT_EPT_NO_SPLITS
    · rw [changeMapping_of_large hpde hsp] at h
      injection h with h
      subst h
      exact ⟨rfl, fun r2 hr2 => updateRegion_ne _ _ hr2, true, true, true,
        (splitPtEntries mt p).set (ptIndex s)
          (changedLeaf (splitPtEntries mt p) (ptIndex s) t rw fe),
        updateRegion_self _ _ _⟩
    · rw [changeMapping_of_large_full hpde (by omega)] at h
      cases h
  · rw [changeMapping_of_standard hpde] at h
    injection h with h
    subst h
    exact ⟨rfl, fun r2 hr2 => updateRegion_ne _ _ hr2, r, w, x,
      pt.set (ptIndex s) (changedLeaf pt (ptIndex s) t rw fe),
      updateRegion_self _ _ _⟩

theorem changeMapping_isSome_of_standard {c : Core} {s t : Nat} {rw fe : Bool}
    {r w x : Bool} {pt : List EPT_PtE}
    (h : c.ept (regionIndex s) = .standard r w x pt) :
    (EPT_changeMapping c s t rw fe).isSome := by
  rw [changeMapping_of_standard h]
  rfl

/-! Case lemmas for the two VMCALL services. -/

theorem vmCallMapPage_cases (c : Core) (g r f : Nat) :
    vmCallMapPage c g r f = (.unsuccessful, c) ∨
      (vmCallMapPage c g r f).1 = .success := by
  unfold vmCallMapPage
  repeat' split
  all_goals first
  | exact Or.inl rfl
  | exact Or.inr rfl

theorem vmCallUnmapPage_cases (c : Core) (g : Nat) :
    vmCallUnmapPage c g = (.unsuccessful, c) ∨
      (vmCallUnmapPage c g).1 = .success := by
  unfold vmCallUnmapPage
  repeat' split
  all_goals first
  | exact Or.inl rfl
  | exact Or.inr rfl

theorem vmCallMapPage_success {c : Core} {g r f : Nat}
    (h : (vmCallMapPage c g r f).1 = .success) :
    pageOffset g = 0 ∧ pageOffset r = 0 ∧ pageOffset f = 0 ∧
      c.changedMappings.any (fun m => m.collidesWith g r f) = false ∧
      ∃ i c1, firstInvalidIdx c.changedMappings = some i ∧
        EPT_changeMapping c g g false false = some c1 ∧
        (vmCallMapPage c g r f).2 =
          { c1 with changedMappings := (c1.changedMappings.set i
              { guestAddress := g, hostRwAddress := r, hostFetchAddress := f,
                valid := true }) } := by
  by_cases ha : pageOffset g ≠ 0 ∨ pageOffset r ≠ 0 ∨ pageOffset f ≠ 0
  · rw [vmCallMapPage, if_pos ha] at h
    cases h
  · unfold vmCallMapPage at h ⊢
    rw [if_neg ha] at h ⊢
    push_neg at ha
    by_cases hcol : c.changedMappings.any (fun m => m.collidesWith g r f) = true
    · rw [if_pos hcol] at h
      cases h
    · rw [if_neg hcol] at h ⊢
      cases hidx : firstInvalidIdx c.changedMappings with
      | none => rw [hidx] at h; exact Status.noConfusion h
      | some i =>
          cases hchg : EPT_changeMapping c g g false false with
          | none => rw [hidx, hchg] at h; exact Status.noConfusion h
          | some c1 =>
              exact ⟨ha.1, ha.2.1, ha.2.2,
                Bool.eq_false_iff.mpr hcol, i, c1, rfl, rfl, rfl⟩

theorem vmCallUnmapPage_success {c : Core} {g : Nat}
    (h : (vmCallUnmapPage c g).1 = .success) :
    ∃ i c1, findMappingIdx g c.changedMappings = some i ∧
      EPT_changeMapping c g g true true = some c1 ∧
      (vmCallUnmapPage c g).2 =
        { c1 with changedMappings := c1.changedMappings.set i zeroMapping } := by
  unfold vmCallUnmapPage at h ⊢
  cases hidx : findMappingIdx g c.changedMappings with
  | none => rw [hidx] at h; exact Status.noConfusion h
  | some i =>
      cases hchg : EPT_changeMapping c g g true true with
      | none => rw [hidx, hchg] at h; exact Status.noConfusion h
      | some c1 => exact ⟨i, c1, rfl, rfl, rfl⟩

/-- Claim C6: whenever install or remove returns a failure status, the
per-core mapping table, split arena and EPT structures (the whole Core
state) are left unchanged. -/
theorem claim_C6 (c : Core) (g r f g2 : Nat) :
    ((vmCallMapPage c g r f).1 = .unsuccessful → (vmCallMapPage c g r f).2 = c) ∧
    ((vmCallUnmapPage c g2).1 = .unsuccessful → (vmCallUnmapPage c g2).2 = c) := by
  constructor
  · intro h
    rcases vmCallMapPage_cases c g r f with heq | hs
    · rw [heq]
    · rw [hs] at h
      cases h
  · intro h
    rcases vmCallUnmapPage_cases c g2 with heq | hs
    · rw [heq]
    · rw [hs] at h
      cases h

/-- Witness for C6: removing an unmapped page from the fresh state fails and
leaves the state unchanged. -/
theorem claim_C6_witness :
    (vmCallUnmapPage initialCore 4096).1 = .unsuccessful ∧
    (vmCallUnmapPage initialCore 4096).2 = initialCore :=
  ⟨by decide, (claim_C6 initialCore 0 0 0 4096).2 (by decide)⟩

/-- Counterexample to claim C3 as stated: the claim demands failure whenever
any of the three given frames is used by a valid record in any of its three
fields, but the code only rejects the five combinations of vmexit.c lines
277-281.  After install(0x1000, 0x2000, 0x3000) succeeds, a valid record has
rw-target 0x2000, yet install(0x4000, 0x2000, 0x5000) — whose rwHostPhys
0x2000 collides with that rw-target — succeeds and stores a record. -/
theorem claim_C3_counterexample :
    (vmCallMapPage initialCore 4096 8192 12288).1 = .success ∧
    (∃ m ∈ (vmCallMapPage initialCore 4096 8192 12288).2.changedMappings,
      m.valid = true ∧ m.hostRwAddress = 8192) ∧
    (vmCallMapPage (vmCallMapPage initialCore 4096 8192 12288).2
        16384 8192 20480).1 = .success ∧
    ((vmCallMapPage (vmCallMapPage initialCore 4096 8192 12288).2
        16384 8192 20480).2.changedMappings.getD 1 default) =
      { guestAddress := 16384, hostRwAddress := 8192,
        hostFetchAddress := 20480, valid := true } := by
  refine ⟨by decide, ?_, by decide, by decide⟩
  exact ⟨{ guestAddress := 4096, hostRwAddress := 8192,
           hostFetchAddress := 12288, valid := true }, by decide, rfl, rfl⟩

/-- Claim C3 (amended): install returns failure and stores no record
whenever a valid record uses guestPhys as its guest key, rw-target or
fetch-target, or uses rwHostPhys or fetchHostPhys as its guest key; target
against target collisions are not rejected. -/
theorem claim_C3_amended (c : Core) (g r f : Nat)
    (h : ∃ m ∈ c.changedMappings, m.valid = true ∧
      (m.guestAddress = g ∨ m.hostFetchAddress = g ∨ m.hostRwAddress = g ∨
        m.guestAddress = r ∨ m.guestAddress = f)) :
    vmCallMapPage c g r f = (.unsuccessful, c) := by
  rcases vmCallMapPage_cases c g r f with heq | hs
  · exact heq
  · exfalso
    obtain ⟨_, _, _, hcol, _⟩ := vmCallMapPage_success hs
    obtain ⟨m, hm, hv, hd⟩ := h
    rw [List.any_eq_false] at hcol
    refine hcol m hm ?_
    rcases hd with h1 | h1 | h1 | h1 | h1 <;>
      simp [Context_EptChangedMapping.collidesWith, hv, h1]

/-- A one-slot mapping table holding the record (0x1000, 0x2000, 0x3000),
used as a concrete state below. -/
def mappingA : Context_EptChangedMapping :=
  { guestAddress := 4096, hostRwAddress := 8192, hostFetchAddress := 12288,
    valid := true }

/-- A concrete per-core state whose table holds mappingA. -/
def coreWithMappingA : Core :=
  { ept := identityEpt, noOfUsedSplits := 0, changedMappings := [mappingA] }

/-- Witness for the amended C3: installing a page that is already mapped is
rejected without a state change. -/
theorem claim_C3_amended_witness :
    vmCallMapPage coreWithMappingA 4096 20480 24576 =
      (.unsuccessful, coreWithMappingA) :=
  claim_C3_amended _ _ _ _ ⟨mappingA, by decide, rfl, Or.inl rfl⟩

/-- Claim C7: splitting a 2 MiB leaf consumes the next split-arena slot as a
512-entry page table whose entry i has read = write = fetch = 1, the parent
leaf's memory type and frame 512 * parentFrame + i, and replaces the PD
entry with a directory entry pointing at that table; when the arena counter
equals CONTEXT_EPT_NO_SPLITS = 32 the split fails with no state change (the
33rd split of a core fails).  The hypothesis p < 2^31 reflects the 31-bit
pageFrameNumber field of EPT_PdE2MB. -/
theorem claim_C7 (c : Core) (ri : Nat) (r w x : Bool) (mt p : Nat)
    (hpde : c.ept ri = .largePage r w x mt p) (hp : p < 2 ^ 31) :
    (c.noOfUsedSplits < CONTEXT_EPT_NO_SPLITS →
      ∃ c1, splitPage c ri = some c1 ∧
        c1.noOfUsedSplits = c.noOfUsedSplits + 1 ∧
        c1.changedMappings = c.changedMappings ∧
        c1.ept ri = .standard true true true (splitPtEntries mt p) ∧
        (∀ r2, r2 ≠ ri → c1.ept r2 = c.ept r2) ∧
        (splitPtEntries mt p).length = 512 ∧
        (∀ i, i < 512 → (splitPtEntries mt p).get? i =
          some { readAccess := true, writeAccess := true, fetchAccess := true,
                 memoryType := mt, pageFrameNumber := 512 * p + i })) ∧
    (c.noOfUsedSplits = CONTEXT_EPT_NO_SPLITS → splitPage c ri = none) := by
  constructor
  · intro hsp
    refine ⟨{ c with
        noOfUsedSplits := c.noOfUsedSplits + 1,
        ept := (updateRegion c.ept ri
          (.standard true true true (splitPtEntries mt p))) },
      ?_, rfl, rfl, updateRegion_self _ _ _,
      fun r2 hr2 => updateRegion_ne _ _ hr2, by simp [splitPtEntries], ?_⟩
    · unfold splitPage
      rw [if_neg (by omega), hpde]
    · intro i hi
      rw [splitPtEntries, List.get?_eq_getElem?, List.getElem?_map,
        List.getElem?_range hi]
      have h31 : (2 : Nat) ^ 31 = 2147483648 := by norm_num
      have h40 : (2 : Nat) ^ 40 = 1099511627776 := by norm_num
      have : (512 * p + i) % 2 ^ 40 = 512 * p + i :=
        Nat.mod_eq_of_lt (by rw [h40]; rw [h31] at hp; omega)
      simp only [Option.map_some', this]
  · intro hfull
    unfold splitPage
    rw [if_pos (by omega)]

theorem frame4KB_mod_eq {a : Nat} (h : a < 2 ^ 52) :
    a / 2 ^ 12 % 2 ^ 40 = a / 2 ^ 12 :=
  Nat.mod_eq_of_lt ((Nat.div_lt_iff_lt_mul (by norm_num)).mpr
    ((by norm_num : (2 : Nat) ^ 40 * 2 ^ 12 = 2 ^ 52).symm ▸ h))

theorem firstInvalidIdx_none_of_all_valid {l : List Context_EptChangedMapping}
    (h : ∀ m ∈ l, m.valid = true) : firstInvalidIdx l = none := by
  induction l with
  | nil => rfl
  | cons m rest ih =>
      rw [firstInvalidIdx, if_pos (h m (by simp)),
        ih fun m2 hm2 => h m2 (by simp [hm2])]
      rfl

theorem get?_set_self {α : Type} (l : List α) (i : Nat) (v : α)
    (h : i < l.length) : (l.set i v).get? i = some v := by
  rw [List.get?_eq_getElem?, List.getElem?_set_self h]

theorem splitPtEntries_length (mt p : Nat) :
    (splitPtEntries mt p).length = 512 := by
  simp [splitPtEntries]

theorem splitPtEntries_getD (mt p i : Nat) (hi : i < 512) :
    (splitPtEntries mt p).getD i default =
      { readAccess := true, writeAccess := true, fetchAccess := true,
        memoryType := mt, pageFrameNumber := (512 * p + i) % 2 ^ 40 } := by
  rw [List.getD_eq_getElem?_getD, splitPtEntries, List.getElem?_map,
    List.getElem?_range hi]
  rfl

theorem ptIndex_lt (addr : Nat) : ptIndex addr < 512 :=
  Nat.mod_lt _ (by norm_num)

/-- Claim C5: a successful install stores its record in the first invalid
slot of the 32-entry mapping table and sets the guest page's 4 KiB leaf to
the dormant state frame = guestPhys, read = write = fetch = 0; when all 32
slots are valid (so also for a 33rd distinct mapping) install fails with no
state change.  The hypotheses bound guestPhys by the address width and state
that a previously split table at guestPhys has its 512 entries. -/
theorem claim_C5 (c : Core) (g r f : Nat) (hg : g < 2 ^ 52)
    (hlen : c.changedMappings.length = CONTEXT_EPT_MAX_MAPPINGS)
    (hwf : ∀ r2 w2 x2 pt, c.ept (regionIndex g) = .standard r2 w2 x2 pt →
      pt.length = 512) :
    ((∀ m ∈ c.changedMappings, m.valid = true) →
      vmCallMapPage c g r f = (.unsuccessful, c)) ∧
    ((vmCallMapPage c g r f).1 = .success →
      ∃ i, i < CONTEXT_EPT_MAX_MAPPINGS ∧
        (c.changedMappings.getD i default).valid = false ∧
        (∀ j, j < i → (c.changedMappings.getD j default).valid = true) ∧
        (vmCallMapPage c g r f).2.changedMappings =
          c.changedMappings.set i
            { guestAddress := g, hostRwAddress := r, hostFetchAddress := f,
              valid := true } ∧
        ∃ mt, pteAt (vmCallMapPage c g r f).2 g =
          some { readAccess := false, writeAccess := false,
                 fetchAccess := false, memoryType := mt,
                 pageFrameNumber := g / 2 ^ 12 }) := by
  have h52 : (2 : Nat) ^ 40 * 2 ^ 12 = 2 ^ 52 := by norm_num
  have hframe : g / 2 ^ 12 % 2 ^ 40 = g / 2 ^ 12 :=
    Nat.mod_eq_of_lt ((Nat.div_lt_iff_lt_mul (by norm_num)).mpr (h52.symm ▸ hg))
  constructor
  · intro hall
    rcases vmCallMapPage_cases c g r f with heq | hs
    · exact heq
    · exfalso
      obtain ⟨_, _, _, _, i, c1, hidx, _, _⟩ := vmCallMapPage_success hs
      rw [firstInvalidIdx_none_of_all_valid hall] at hidx
      cases hidx
  · intro hs
    obtain ⟨hag, har, haf, hcol, i, c1, hidx, hchg, heq2⟩ :=
      vmCallMapPage_success hs
    obtain ⟨hlt, hinv, hbef⟩ := firstInvalidIdx_spec hidx
    have hmapeq := (changeMapping_some_parts hchg).1
    refine ⟨i, by rw [hlen] at hlt; exact hlt, hinv, hbef, ?_, ?_⟩
    · rw [heq2]
      show c1.changedMappings.set i _ = _
      rw [hmapeq]
    · rcases hpde : c.ept (regionIndex g) with ⟨r2, w2, x2, mt, p⟩ | ⟨r2, w2, x2, pt⟩
      · by_cases hsp : c.noOfUsedSplits < CONTEXT_EPT_NO_SPLITS
        · rw [changeMapping_of_large hpde hsp] at hchg
          injection hchg with hchg
          subst hchg
          refine ⟨mt, ?_⟩
          rw [heq2]
          show pteAt _ g = _
          rw [pteAt]
          simp only [updateRegion_self]
          rw [get?_set_self _ _ _ (by rw [splitPtEntries_length]; exact ptIndex_lt g)]
          rw [changedLeaf, splitPtEntries_getD mt p _ (ptIndex_lt g), hframe]
        · rw [changeMapping_of_large_full hpde (by omega)] at hchg
          cases hchg
      · rw [changeMapping_of_standard hpde] at hchg
        injection hchg with hchg
        subst hchg
        refine ⟨(pt.getD (ptIndex g) default).memoryType, ?_⟩
        rw [heq2]
        show pteAt _ g = _
        rw [pteAt]
        simp only [updateRegion_self]
        rw [get?_set_self _ _ _
          (by rw [hwf r2 w2 x2 pt hpde]; exact ptIndex_lt g)]
        rw [changedLeaf, hframe]

/-- Witness for C5: installing (0x1000, 0x2000, 0x3000) on a fresh core
stores the record in slot 0 and leaves the leaf dormant; a fully valid table
refuses the install. -/
theorem claim_C5_witness :
    ((∀ m ∈ initialCore.changedMappings, m.valid = true) →
      vmCallMapPage initialCore 4096 8192 12288 = (.unsuccessful, initialCore)) ∧
    ((vmCallMapPage initialCore 4096 8192 12288).1 = .success →
      ∃ i, i < CONTEXT_EPT_MAX_MAPPINGS ∧
        (initialCore.changedMappings.getD i default).valid = false ∧
        (∀ j, j < i → (initialCore.changedMappings.getD j default).valid = true) ∧
        (vmCallMapPage initialCore 4096 8192 12288).2.changedMappings =
          initialCore.changedMappings.set i
            { guestAddress := 4096, hostRwAddress := 8192,
              hostFetchAddress := 12288, valid := true } ∧
        ∃ mt, pteAt (vmCallMapPage initialCore 4096 8192 12288).2 4096 =
          some { readAccess := false, writeAccess := false,
                 fetchAccess := false, memoryType := mt,
                 pageFrameNumber := 4096 / 2 ^ 12 }) :=
  claim_C5 initialCore 4096 8192 12288 (by norm_num) (by decide)
    (fun r2 w2 x2 pt h => by simp [initialCore, identityEpt] at h)

/-- Claim C1: when the table holds a valid record for the page base of the
faulting address (the one the handler's search finds) and the page's PD
entry has been split into a 4 KiB table, a data-read or data-write EPT
violation rewrites the page's leaf to frame = the record's rw-target with
read = write = 1, fetch = 0, and an instruction-fetch violation rewrites it
to frame = the record's fetch-target with read = write = 0, fetch = 1; after
either flip exactly one of the read/write pair and fetch is permitted. -/
theorem claim_C1 (c : Core) (addr : Nat) (dr dw xf : Bool)
    (m : Context_EptChangedMapping)
    (hfind : findMapping (pageBase addr) c.changedMappings = some m)
    (r w x : Bool) (pt : List EPT_PtE)
    (hpde : c.ept (regionIndex m.guestAddress) = .standard r w x pt)
    (hlen : pt.length = 512)
    (hrw : m.hostRwAddress < 2 ^ 52) (hfe : m.hostFetchAddress < 2 ^ 52) :
    ((dr || dw) = true →
      ∃ c2, eptViolationHandler c dr dw xf addr = some c2 ∧
        ∃ e, pteAt c2 m.guestAddress = some e ∧
          e.pageFrameNumber = m.hostRwAddress / 2 ^ 12 ∧
          e.readAccess = true ∧ e.writeAccess = true ∧ e.fetchAccess = false ∧
          ((e.readAccess || e.writeAccess) && e.fetchAccess) = false ∧
          ((e.readAccess || e.writeAccess) || e.fetchAccess) = true) ∧
    (dr = false → dw = false → xf = true →
      ∃ c2, eptViolationHandler c dr dw xf addr = some c2 ∧
        ∃ e, pteAt c2 m.guestAddress = some e ∧
          e.pageFrameNumber = m.hostFetchAddress / 2 ^ 12 ∧
          e.readAccess = false ∧ e.writeAccess = false ∧ e.fetchAccess = true ∧
          ((e.readAccess || e.writeAccess) && e.fetchAccess) = false ∧
          ((e.readAccess || e.writeAccess) || e.fetchAccess) = true) := by
  constructor
  · intro hacc
    simp only [eptViolationHandler, hfind]
    rw [if_pos hacc]
    rw [changeMapping_of_standard hpde]
    refine ⟨_, rfl, changedLeaf pt (ptIndex m.guestAddress) m.hostRwAddress true false, ?_, ?_, rfl, rfl, rfl, ?_, ?_⟩
    · rw [pteAt]
      simp only [Option.getD_some, updateRegion_self]
      exact get?_set_self _ _ _ (by rw [hlen]; exact ptIndex_lt _)
    · rw [changedLeaf]
      exact frame4KB_mod_eq hrw
    · rfl
    · rfl
  · intro hdr hdw hxf
    simp only [eptViolationHandler, hfind]
    rw [if_neg (by simp [hdr, hdw]), if_pos hxf]
    rw [changeMapping_of_standard hpde]
    refine ⟨_, rfl, changedLeaf pt (ptIndex m.guestAddress) m.hostFetchAddress false true, ?_, ?_, rfl, rfl, rfl, ?_, ?_⟩
    · rw [pteAt]
      simp only [Option.getD_some, updateRegion_self]
      exact get?_set_self _ _ _ (by rw [hlen]; exact ptIndex_lt _)
    · rw [changedLeaf]
      exact frame4KB_mod_eq hfe
    · rfl
    · rfl

/-- A concrete state for exercising the violation handler: the PD entry of
region 0 is split and the table holds mappingA. -/
def coreSplitA : Core :=
  { ept := (updateRegion identityEpt 0
      (.standard true true true (splitPtEntries 6 0))),
    noOfUsedSplits := 1, changedMappings := [mappingA] }

/-- Witness for C1: a data-read violation at 0x1004 on coreSplitA flips the
leaf of page 0x1000 to the rw-target 0x2000, and an instruction fetch flips
it to the fetch-target 0x3000. -/
theorem claim_C1_witness :
    (((true : Bool) || false) = true →
      ∃ c2, eptViolationHandler coreSplitA true false false 4100 = some c2 ∧
        ∃ e, pteAt c2 mappingA.guestAddress = some e ∧
          e.pageFrameNumber = mappingA.hostRwAddress / 2 ^ 12 ∧
          e.readAccess = true ∧ e.writeAccess = true ∧ e.fetchAccess = false ∧
          ((e.readAccess || e.writeAccess) && e.fetchAccess) = false ∧
          ((e.readAccess || e.writeAccess) || e.fetchAccess) = true) ∧
    ((true : Bool) = false → (false : Bool) = false → (false : Bool) = true →
      ∃ c2, eptViolationHandler coreSplitA true false false 4100 = some c2 ∧
        ∃ e, pteAt c2 mappingA.guestAddress = some e ∧
          e.pageFrameNumber = mappingA.hostFetchAddress / 2 ^ 12 ∧
          e.readAccess = false ∧ e.writeAccess = false ∧ e.fetchAccess = true ∧
          ((e.readAccess || e.writeAccess) && e.fetchAccess) = false ∧
          ((e.readAccess || e.writeAccess) || e.fetchAccess) = true) :=
  claim_C1 coreSplitA 4100 true false false mappingA (by decide) true true true
    (splitPtEntries 6 0) rfl (splitPtEntries_length 6 0) (by decide) (by decide)

/-- Witness for C7: splitting the identity 2 MiB leaf of region 3 on a fresh
core succeeds, and a full arena refuses the split. -/
theorem claim_C7_witness :
    ((0 : Nat) < CONTEXT_EPT_NO_SPLITS →
      ∃ c1, splitPage initialCore 3 = some c1 ∧
        c1.noOfUsedSplits = 0 + 1 ∧
        c1.changedMappings = initialCore.changedMappings ∧
        c1.ept 3 = .standard true true true (splitPtEntries 6 3) ∧
        (∀ r2, r2 ≠ 3 → c1.ept r2 = initialCore.ept r2) ∧
        (splitPtEntries 6 3).length = 512 ∧
        (∀ i, i < 512 → (splitPtEntries 6 3).get? i =
          some { readAccess := true, writeAccess := true, fetchAccess := true,
                 memoryType := 6, pageFrameNumber := 512 * 3 + i })) ∧
    ((0 : Nat) = CONTEXT_EPT_NO_SPLITS → splitPage initialCore 3 = none) :=
  claim_C7 initialCore 3 true true true 6 3 rfl (by norm_num)

/-! Reachability invariants (claims C2 and C10). -/

/-- The alias-freedom invariant the code actually maintains: among valid
records, guest keys are pairwise distinct and no record's guest key equals
another record's rw-target or fetch-target.  (A record's guest key may
coincide with its own targets.) -/
def MappingAliasInvariant (l : List Context_EptChangedMapping) : Prop :=
  ∀ i, i < l.length → ∀ j, j < l.length → i ≠ j →
    (l.getD i default).valid = true → (l.getD j default).valid = true →
    (l.getD i default).guestAddress ≠ (l.getD j default).guestAddress ∧
    (l.getD i default).guestAddress ≠ (l.getD j default).hostRwAddress ∧
    (l.getD i default).guestAddress ≠ (l.getD j default).hostFetchAddress

/-- The property claim C2 states: additionally, a guest key may not equal
the rw-target or fetch-target of ANY valid record, its own included. -/
def ClaimC2Property (l : List Context_EptChangedMapping) : Prop :=
  (∀ i, i < l.length → ∀ j, j < l.length → i ≠ j →
    (l.getD i default).valid = true → (l.getD j default).valid = true →
    (l.getD i default).guestAddress ≠ (l.getD j default).guestAddress) ∧
  ∀ m ∈ l, m.valid = true → ∀ m2 ∈ l, m2.valid = true →
    m.guestAddress ≠ m2.hostRwAddress ∧ m.guestAddress ≠ m2.hostFetchAddress

/-- The split invariant: every valid record's guest page has a split
(non-large) PD entry. -/
def SplitInvariant (c : Core) : Prop :=
  ∀ m ∈ c.changedMappings, m.valid = true →
    ∃ r w x pt, c.ept (regionIndex m.guestAddress) = .standard r w x pt

theorem collidesWith_eq_false {m : Context_EptChangedMapping} {g r f : Nat}
    (h : m.collidesWith g r f = false) (hv : m.valid = true) :
    m.guestAddress ≠ g ∧ m.hostFetchAddress ≠ g ∧ m.hostRwAddress ≠ g ∧
      m.guestAddress ≠ r ∧ m.guestAddress ≠ f := by
  rw [Context_EptChangedMapping.collidesWith, hv] at h
  simpa [and_assoc] using h

theorem getD_eq_of_mem_getD {l : List Context_EptChangedMapping} {j : Nat}
    (hj : j < l.length) : l.getD j default ∈ l :=
  getD_mem l j default hj

theorem mappingAliasInvariant_initial :
    MappingAliasInvariant initialMappings := by
  intro i hi j hj hij hvi
  exfalso
  have : initialMappings.getD i default = zeroMapping :=
    List.eq_of_mem_replicate (getD_mem _ i default hi)
  rw [this] at hvi
  cases hvi

theorem mappingAliasInvariant_set_zero {l : List Context_EptChangedMapping}
    {i : Nat} (hinv : MappingAliasInvariant l) :
    MappingAliasInvariant (l.set i zeroMapping) := by
  intro i2 hi2 j2 hj2 hij hvi hvj
  rw [List.length_set] at hi2 hj2
  by_cases hii : i2 = i
  · rw [hii] at hi2 hvi
    rw [getD_set_self _ _ _ _ hi2] at hvi
    cases hvi
  · by_cases hjj : j2 = i
    · rw [hjj] at hj2 hvj
      rw [getD_set_self _ _ _ _ hj2] at hvj
      cases hvj
    · rw [getD_set_ne _ _ _ (fun he => hii he.symm)] at hvi ⊢
      rw [getD_set_ne _ _ _ (fun he => hjj he.symm)] at hvj ⊢
      exact hinv i2 hi2 j2 hj2 hij hvi hvj

theorem mappingAliasInvariant_install {l : List Context_EptChangedMapping}
    {i : Nat} {g r f : Nat} (hinv : MappingAliasInvariant l)
    (hcol : ∀ m ∈ l, m.collidesWith g r f = false) :
    MappingAliasInvariant (l.set i
      { guestAddress := g, hostRwAddress := r, hostFetchAddress := f,
        valid := true }) := by
  intro i2 hi2 j2 hj2 hij hvi hvj
  rw [List.length_set] at hi2 hj2
  by_cases hii : i2 = i
  · rw [hii] at hi2 hij hvi ⊢
    rw [getD_set_self _ _ _ _ hi2] at hvi ⊢
    rw [getD_set_ne _ _ _ hij] at hvj ⊢
    have hc := collidesWith_eq_false (hcol _ (getD_eq_of_mem_getD hj2)) hvj
    exact ⟨fun he => hc.1 he.symm, fun he => hc.2.2.1 he.symm,
      fun he => hc.2.1 he.symm⟩
  · rw [getD_set_ne _ _ _ (fun he => hii he.symm)] at hvi ⊢
    by_cases hjj : j2 = i
    · rw [hjj] at hj2 hvj ⊢
      rw [getD_set_self _ _ _ _ hj2] at hvj ⊢
      have hc := collidesWith_eq_false (hcol _ (getD_eq_of_mem_getD hi2)) hvi
      exact ⟨hc.1, hc.2.2.2.1, hc.2.2.2.2⟩
    · rw [getD_set_ne _ _ _ (fun he => hjj he.symm)] at hvj ⊢
      exact hinv i2 hi2 j2 hj2 hij hvi hvj

theorem eptViolationHandler_parts {c c2 : Core} {dr dw xf : Bool} {addr : Nat}
    (h : eptViolationHandler c dr dw xf addr = some c2) :
    c2.changedMappings = c.changedMappings ∧
      ∀ q, (∃ r w x pt, c.ept q = .standard r w x pt) →
        ∃ r w x pt, c2.ept q = .standard r w x pt := by
  cases hfind : findMapping (pageBase addr) c.changedMappings with
  | none =>
      simp only [eptViolationHandler, hfind] at h
      exact Option.noConfusion h
  | some m =>
      simp only [eptViolationHandler, hfind] at h
      by_cases hacc : (dr || dw) = true
      · rw [if_pos hacc] at h
        injection h with h
        subst h
        cases hc : EPT_changeMapping c m.guestAddress m.hostRwAddress true false with
        | none => exact ⟨rfl, fun q hq => hq⟩
        | some c1 =>
            obtain ⟨h1, h2, h3⟩ := changeMapping_some_parts hc
            refine ⟨h1, fun q hq => ?_⟩
            show ∃ r w x pt, c1.ept q = EPT_PdE.standard r w x pt
            by_cases hqr : q = regionIndex m.guestAddress
            · subst hqr; exact h3
            · rw [h2 q hqr]; exact hq
      · rw [if_neg hacc] at h
        by_cases hxf : xf = true
        · rw [if_pos hxf] at h
          injection h with h
          subst h
          cases hc : EPT_changeMapping c m.guestAddress m.hostFetchAddress false true with
          | none => exact ⟨rfl, fun q hq => hq⟩
          | some c1 =>
              obtain ⟨h1, h2, h3⟩ := changeMapping_some_parts hc
              refine ⟨h1, fun q hq => ?_⟩
              show ∃ r w x pt, c1.ept q = EPT_PdE.standard r w x pt
              by_cases hqr : q = regionIndex m.guestAddress
              · subst hqr; exact h3
              · rw [h2 q hqr]; exact hq
        · rw [if_neg hxf] at h
          exact Option.noConfusion h

theorem execStep_alias {c c2 : Core} {s : Step} (h : execStep c s = some c2)
    (hinv : MappingAliasInvariant c.changedMappings) :
    MappingAliasInvariant c2.changedMappings := by
  cases s with
  | map g r f =>
      injection h with h
      subst h
      rcases vmCallMapPage_cases c g r f with heq | hs
      · rw [heq]; exact hinv
      · obtain ⟨_, _, _, hcol, i, c1, hidx, hchg, heq2⟩ := vmCallMapPage_success hs
        rw [heq2]
        show MappingAliasInvariant (c1.changedMappings.set i _)
        rw [(changeMapping_some_parts hchg).1]
        refine mappingAliasInvariant_install hinv fun m hm => ?_
        have := List.any_eq_false.mp hcol m hm
        simpa using this
  | unmap g =>
      injection h with h
      subst h
      rcases vmCallUnmapPage_cases c g with heq | hs
      · rw [heq]; exact hinv
      · obtain ⟨i, c1, hidx, hchg, heq2⟩ := vmCallUnmapPage_success hs
        rw [heq2]
        show MappingAliasInvariant (c1.changedMappings.set i zeroMapping)
        rw [(changeMapping_some_parts hchg).1]
        exact mappingAliasInvariant_set_zero hinv
  | violate dr dw xf addr =>
      rw [(eptViolationHandler_parts h).1]
      exact hinv

theorem reachable_alias {c : Core} (h : Reachable c) :
    MappingAliasInvariant c.changedMappings := by
  induction h with
  | init ept0 splits0 => exact mappingAliasInvariant_initial
  | step s hc hstep ih => exact execStep_alias hstep ih

theorem splitInvariant_initial (ept0 : Nat → EPT_PdE) (splits0 : Nat) :
    SplitInvariant
      { ept := ept0, noOfUsedSplits := splits0,
        changedMappings := initialMappings } := by
  intro m hm hv
  rw [List.eq_of_mem_replicate hm] at hv
  cases hv

theorem execStep_split {c c2 : Core} {s : Step} (h : execStep c s = some c2)
    (hinv : SplitInvariant c) : SplitInvariant c2 := by
  cases s with
  | map g r f =>
      injection h with h
      subst h
      rcases vmCallMapPage_cases c g r f with heq | hs
      · rw [heq]; exact hinv
      · obtain ⟨_, _, _, hcol, i, c1, hidx, hchg, heq2⟩ := vmCallMapPage_success hs
        rw [heq2]
        intro m hm hv
        obtain ⟨hmap, hother, hstd⟩ := changeMapping_some_parts hchg
        show ∃ r2 w2 x2 pt, c1.ept (regionIndex m.guestAddress) = _
        rcases List.mem_or_eq_of_mem_set hm with hm2 | rfl
        · rw [hmap] at hm2
          obtain ⟨r2, w2, x2, pt, hq⟩ := hinv m hm2 hv
          by_cases hqr : regionIndex m.guestAddress = regionIndex g
          · rw [hqr]; exact hstd
          · rw [hother _ hqr]; exact ⟨r2, w2, x2, pt, hq⟩
        · exact hstd
  | unmap g =>
      injection h with h
      subst h
      rcases vmCallUnmapPage_cases c g with heq | hs
      · rw [heq]; exact hinv
      · obtain ⟨i, c1, hidx, hchg, heq2⟩ := vmCallUnmapPage_success hs
        rw [heq2]
        intro m hm hv
        obtain ⟨hmap, hother, hstd⟩ := changeMapping_some_parts hchg
        show ∃ r2 w2 x2 pt, c1.ept (regionIndex m.guestAddress) = _
        rcases List.mem_or_eq_of_mem_set hm with hm2 | rfl
        · rw [hmap] at hm2
          obtain ⟨r2, w2, x2, pt, hq⟩ := hinv m hm2 hv
          by_cases hqr : regionIndex m.guestAddress = regionIndex g
          · rw [hqr]; exact hstd
          · rw [hother _ hqr]; exact ⟨r2, w2, x2, pt, hq⟩
        · cases hv
  | violate dr dw xf addr =>
      obtain ⟨hmap, hmono⟩ := eptViolationHandler_parts h
      intro m hm hv
      rw [hmap] at hm
      exact hmono _ (hinv m hm hv)

theorem reachable_split {c : Core} (h : Reachable c) : SplitInvariant c := by
  induction h with
  | init ept0 splits0 => exact splitInvariant_initial ept0 splits0
  | step s hc hstep ih => exact execStep_split hstep ih

/-- Counterexample to claim C2 as stated: from the fresh state, the single
install(0x1000, rw = 0x1000, fetch = 0x2000) succeeds (the collision loop
only checks the request against OTHER valid records), and in the resulting
state the guest key 0x1000 is also the rw-target of that same valid record,
violating the claimed invariant. -/
theorem claim_C2_counterexample :
    (vmCallMapPage initialCore 4096 4096 8192).1 = .success ∧
    ¬ ClaimC2Property (vmCallMapPage initialCore 4096 4096 8192).2.changedMappings := by
  refine ⟨by decide, fun hcp => ?_⟩
  have h2 := hcp.2
    { guestAddress := 4096, hostRwAddress := 4096, hostFetchAddress := 8192,
      valid := true } (by decide) rfl
    { guestAddress := 4096, hostRwAddress := 4096, hostFetchAddress := 8192,
      valid := true } (by decide) rfl
  exact h2.1 rfl

/-- Claim C2 (amended): in every reachable per-core state, a guest-physical
frame appears at most once as the guest key among valid records, and the
guest key of a valid record does not appear as the rw-target or fetch-target
of any OTHER valid record (it may coincide with that same record's own
targets, as in install(P, rw = P, fetch = P2)). -/
theorem claim_C2_amended (c : Core) (h : Reachable c) :
    MappingAliasInvariant c.changedMappings :=
  reachable_alias h

/-- Witness for the amended C2: the invariant holds in the state reached by
one install from the fresh state. -/
theorem claim_C2_amended_witness :
    MappingAliasInvariant
      (vmCallMapPage initialCore 4096 4096 8192).2.changedMappings :=
  claim_C2_amended _
    (Reachable.step (Step.map 4096 4096 8192) (Reachable.init identityEpt 0) rfl)

/-- Claim C10: in every reachable state, the PD entry covering the guest
page of a valid mapping record is a non-large directory entry, so every
EPT_changeMapping call for that page (the violation flips and the identity
restore of remove) cannot take the split path and returns success — the
failure branch after the restore in vmCallUnmapPage and the ignored failure
status of the flip calls are unreachable. -/
theorem claim_C10 (c : Core) (h : Reachable c) (m : Context_EptChangedMapping)
    (hm : m ∈ c.changedMappings) (hv : m.valid = true) :
    (∃ r w x pt, c.ept (regionIndex m.guestAddress) = .standard r w x pt) ∧
    ∀ t rw fe, (EPT_changeMapping c m.guestAddress t rw fe).isSome := by
  obtain ⟨r, w, x, pt, hstd⟩ := reachable_split h m hm hv
  exact ⟨⟨r, w, x, pt, hstd⟩,
    fun t rw fe => changeMapping_isSome_of_standard hstd⟩

/-- Witness for C10: after installing mappingA from the fresh state, the PD
entry of its guest page is split and every change-mapping call for it
succeeds. -/
theorem claim_C10_witness :
    (∃ r w x pt, (vmCallMapPage initialCore 4096 8192 12288).2.ept
      (regionIndex mappingA.guestAddress) = .standard r w x pt) ∧
    ∀ t rw fe, (EPT_changeMapping (vmCallMapPage initialCore 4096 8192 12288).2
      mappingA.guestAddress t rw fe).isSome :=
  claim_C10 _
    (Reachable.step (Step.map 4096 8192 12288) (Reachable.init identityEpt 0) rfl)
    mappingA (by decide) rfl

/-! Claim C8: per-address memory-type resolution over the variable MTRRs. -/

/-- Some cached MTRR of memory type t covers the address. -/
def hitsType (mtrrs : List EPT_VariableMtrr) (addr t : Nat) : Prop :=
  ∃ m ∈ mtrrs, m.covers addr ∧ m.memoryType = t

instance (mtrrs : List EPT_VariableMtrr) (addr t : Nat) :
    Decidable (hitsType mtrrs addr t) := by
  unfold hitsType
  infer_instance

theorem hitsType_cons_iff {m : EPT_VariableMtrr}
    {rest : List EPT_VariableMtrr} {addr t : Nat}
    (h : ¬(m.covers addr ∧ m.memoryType = t)) :
    hitsType (m :: rest) addr t ↔ hitsType rest addr t := by
  unfold hitsType
  simp only [List.mem_cons]
  constructor
  · rintro ⟨m2, rfl | hm2, hc, ht⟩
    · exact absurd ⟨hc, ht⟩ h
    · exact ⟨m2, hm2, hc, ht⟩
  · rintro ⟨m2, hm2, hc, ht⟩
    exact ⟨m2, Or.inr hm2, hc, ht⟩

theorem hitsType_cons_self {m : EPT_VariableMtrr}
    {rest : List EPT_VariableMtrr} {addr : Nat} (hc : m.covers addr) :
    hitsType (m :: rest) addr m.memoryType :=
  ⟨m, by simp, hc, rfl⟩

/-- The scan loop computes exactly the found-types bits of the covering
MTRRs, provided every covering MTRR has a known memory type. -/
theorem collectFoundTypes_eq (addr : Nat) (mtrrs : List EPT_VariableMtrr)
    (acc : EPT_FoundMemoryTypes)
    (hvalid : ∀ m ∈ mtrrs, m.covers addr → m.memoryType = 0 ∨
      m.memoryType = 1 ∨ m.memoryType = 4 ∨ m.memoryType = 5 ∨
      m.memoryType = 6) :
    collectFoundTypes addr mtrrs acc = some
      { uncacheable := acc.uncacheable || decide (hitsType mtrrs addr 0),
        writeCombining := acc.writeCombining || decide (hitsType mtrrs addr 1),
        writeThrough := acc.writeThrough || decide (hitsType mtrrs addr 4),
        writeProtected := acc.writeProtected || decide (hitsType mtrrs addr 5),
        writeback := acc.writeback || decide (hitsType mtrrs addr 6) } := by
  induction mtrrs generalizing acc with
  | nil => simp [collectFoundTypes, hitsType]
  | cons m rest ih =>
      have hrest : ∀ m2 ∈ rest, m2.covers addr → m2.memoryType = 0 ∨
          m2.memoryType = 1 ∨ m2.memoryType = 4 ∨ m2.memoryType = 5 ∨
          m2.memoryType = 6 :=
        fun m2 hm2 => hvalid m2 (List.mem_cons_of_mem _ hm2)
      by_cases hc : m.covers addr
      · rcases hvalid m (by simp) hc with ht | ht | ht | ht | ht
        all_goals
          rw [collectFoundTypes, if_pos hc]
        · rw [if_pos ht, ih _ hrest]
          have h0 : hitsType (m :: rest) addr 0 := ht ▸ hitsType_cons_self hc
          have h1 : hitsType (m :: rest) addr 1 ↔ hitsType rest addr 1 :=
            hitsType_cons_iff fun hx => by have := ht.symm.trans hx.2; omega
          have h4 : hitsType (m :: rest) addr 4 ↔ hitsType rest addr 4 :=
            hitsType_cons_iff fun hx => by have := ht.symm.trans hx.2; omega
          have h5 : hitsType (m :: rest) addr 5 ↔ hitsType rest addr 5 :=
            hitsType_cons_iff fun hx => by have := ht.symm.trans hx.2; omega
          have h6 : hitsType (m :: rest) addr 6 ↔ hitsType rest addr 6 :=
            hitsType_cons_iff fun hx => by have := ht.symm.trans hx.2; omega
          simp [h0, h1, h4, h5, h6]
        · rw [if_neg (by omega), if_pos ht, ih _ hrest]
          have h1 : hitsType (m :: rest) addr 1 := ht ▸ hitsType_cons_self hc
          have h0 : hitsType (m :: rest) addr 0 ↔ hitsType rest addr 0 :=
            hitsType_cons_iff fun hx => by have := ht.symm.trans hx.2; omega
          have h4 : hitsType (m :: rest) addr 4 ↔ hitsType rest addr 4 :=
            hitsType_cons_iff fun hx => by have := ht.symm.trans hx.2; omega
          have h5 : hitsType (m :: rest) addr 5 ↔ hitsType rest addr 5 :=
            hitsType_cons_iff fun hx => by have := ht.symm.trans hx.2; omega
          have h6 : hitsType (m :: rest) addr 6 ↔ hitsType rest addr 6 :=
            hitsType_cons_iff fun hx => by have := ht.symm.trans hx.2; omega
          simp [h0, h1, h4, h5, h6]
        · rw [if_neg (by omega), if_neg (by omega), if_pos ht, ih _ hrest]
          have h4 : hitsType (m :: rest) addr 4 := ht ▸ hitsType_cons_self hc
          have h0 : hitsType (m :: rest) addr 0 ↔ hitsType rest addr 0 :=
            hitsType_cons_iff fun hx => by have := ht.symm.trans hx.2; omega
          have h1 : hitsType (m :: rest) addr 1 ↔ hitsType rest addr 1 :=
            hitsType_cons_iff fun hx => by have := ht.symm.trans hx.2; omega
          have h5 : hitsType (m :: rest) addr 5 ↔ hitsType rest addr 5 :=
            hitsType_cons_iff fun hx => by have := ht.symm.trans hx.2; omega
          have h6 : hitsType (m :: rest) addr 6 ↔ hitsType rest addr 6 :=
            hitsType_cons_iff fun hx => by have := ht.symm.trans hx.2; omega
          simp [h0, h1, h4, h5, h6]
        · rw [if_neg (by omega), if_neg (by omega), if_neg (by omega),
            if_pos ht, ih _ hrest]
          have h5 : hitsType (m :: rest) addr 5 := ht ▸ hitsType_cons_self hc
          have h0 : hitsType (m :: rest) addr 0 ↔ hitsType rest addr 0 :=
            hitsType_cons_iff fun hx => by have := ht.symm.trans hx.2; omega
          have h1 : hitsType (m :: rest) addr 1 ↔ hitsType rest addr 1 :=
            hitsType_cons_iff fun hx => by have := ht.symm.trans hx.2; omega
          have h4 : hitsType (m :: rest) addr 4 ↔ hitsType rest addr 4 :=
            hitsType_cons_iff fun hx => by have := ht.symm.trans hx.2; omega
          have h6 : hitsType (m :: rest) addr 6 ↔ hitsType rest addr 6 :=
            hitsType_cons_iff fun hx => by have := ht.symm.trans hx.2; omega
          simp [h0, h1, h4, h5, h6]
        · rw [if_neg (by omega), if_neg (by omega), if_neg (by omega),
            if_neg (by omega), if_pos ht, ih _ hrest]
          have h6 : hitsType (m :: rest) addr 6 := ht ▸ hitsType_cons_self hc
          have h0 : hitsType (m :: rest) addr 0 ↔ hitsType rest addr 0 :=
            hitsType_cons_iff fun hx => by have := ht.symm.trans hx.2; omega
          have h1 : hitsType (m :: rest) addr 1 ↔ hitsType rest addr 1 :=
            hitsType_cons_iff fun hx => by have := ht.symm.trans hx.2; omega
          have h4 : hitsType (m :: rest) addr 4 ↔ hitsType rest addr 4 :=
            hitsType_cons_iff fun hx => by have := ht.symm.trans hx.2; omega
          have h5 : hitsType (m :: rest) addr 5 ↔ hitsType rest addr 5 :=
            hitsType_cons_iff fun hx => by have := ht.symm.trans hx.2; omega
          simp [h0, h1, h4, h5, h6]
      · rw [collectFoundTypes, if_neg hc, ih _ hrest]
        have h0 : hitsType (m :: rest) addr 0 ↔ hitsType rest addr 0 :=
          hitsType_cons_iff fun hx => hc hx.1
        have h1 : hitsType (m :: rest) addr 1 ↔ hitsType rest addr 1 :=
          hitsType_cons_iff fun hx => hc hx.1
        have h4 : hitsType (m :: rest) addr 4 ↔ hitsType rest addr 4 :=
          hitsType_cons_iff fun hx => hc hx.1
        have h5 : hitsType (m :: rest) addr 5 ↔ hitsType rest addr 5 :=
          hitsType_cons_iff fun hx => hc hx.1
        have h6 : hitsType (m :: rest) addr 6 ↔ hitsType rest addr 6 :=
          hitsType_cons_iff fun hx => hc hx.1
        simp [h0, h1, h4, h5, h6]

/-- Memory-type resolution as the specification words it: the single hit
type when exactly one distinct type hits; UC whenever UC is among the hits;
WT for exactly the pair WT and WB; 0xFFFF for any other multi-type
combination; the default type when nothing hits. -/
def specMemoryTypeResolution (f : EPT_FoundMemoryTypes) (defaultMemoryType : Nat) :
    Nat :=
  if foundCount f = 0 then defaultMemoryType
  else if f.uncacheable then 0
  else if foundCount f = 1 then
    if f.writeCombining then 1
    else if f.writeThrough then 4
    else if f.writeProtected then 5
    else 6
  else if f.writeThrough = true ∧ f.writeback = true ∧ foundCount f = 2 then 4
  else 65535

theorem resolveFoundTypes_eq_spec (f : EPT_FoundMemoryTypes) (d : Nat) :
    resolveFoundTypes f d = specMemoryTypeResolution f d := by
  rcases f with ⟨u, c, t, p, b⟩
  cases u <;> cases c <;> cases t <;> cases p <;> cases b <;> rfl

/-- Claim C8: resolving a physical address over valid variable MTRRs whose
range contains it returns the single hit type, UC when UC is among the
hits, WT for exactly the pair WT+WB, the error value 65535 (which makes
enable fail) for any other multi-type combination including WC+WB, and the
MTRR default type when nothing hits.  The hypothesis states every covering
MTRR carries one of the five architectural type encodings. -/
theorem claim_C8 (mtrrs : List EPT_VariableMtrr) (d addr : Nat)
    (hvalid : ∀ m ∈ mtrrs, m.covers addr → m.memoryType = 0 ∨
      m.memoryType = 1 ∨ m.memoryType = 4 ∨ m.memoryType = 5 ∨
      m.memoryType = 6) :
    searchVariableMtrrs mtrrs d addr =
      specMemoryTypeResolution
        { uncacheable := decide (hitsType mtrrs addr 0),
          writeCombining := decide (hitsType mtrrs addr 1),
          writeThrough := decide (hitsType mtrrs addr 4),
          writeProtected := decide (hitsType mtrrs addr 5),
          writeback := decide (hitsType mtrrs addr 6) } d := by
  unfold searchVariableMtrrs
  rw [collectFoundTypes_eq addr mtrrs _ hvalid]
  simp only [Bool.false_or]
  exact resolveFoundTypes_eq_spec _ _

/-- Witness for C8: with one WT and one WB MTRR covering address 0, the
resolution yields WT. -/
theorem claim_C8_witness :
    searchVariableMtrrs
      [{ baseAddress := 0, length := 2097152, memoryType := 4, valid := true },
       { baseAddress := 0, length := 2097152, memoryType := 6, valid := true }]
      6 0 =
    specMemoryTypeResolution
      { uncacheable := decide (hitsType
          [{ baseAddress := 0, length := 2097152, memoryType := 4, valid := true },
           { baseAddress := 0, length := 2097152, memoryType := 6, valid := true }] 0 0),
        writeCombining := decide (hitsType
          [{ baseAddress := 0, length := 2097152, memoryType := 4, valid := true },
           { baseAddress := 0, length := 2097152, memoryType := 6, valid := true }] 0 1),
        writeThrough := decide (hitsType
          [{ baseAddress := 0, length := 2097152, memoryType := 4, valid := true },
           { baseAddress := 0, length := 2097152, memoryType := 6, valid := true }] 0 4),
        writeProtected := decide (hitsType
          [{ baseAddress := 0, length := 2097152, memoryType := 4, valid := true },
           { baseAddress := 0, length := 2097152, memoryType := 6, valid := true }] 0 5),
        writeback := decide (hitsType
          [{ baseAddress := 0, length := 2097152, memoryType := 4, valid := true },
           { baseAddress := 0, length := 2097152, memoryType := 6, valid := true }] 0 6) } 6 :=
  claim_C8 _ 6 0 (by decide)

/-! Claim C9: the variable-MTRR cache fill. -/

theorem bsfAux_spec {n : Nat} :
    ∀ (fuel start k : Nat), bsfAux n start fuel = some k →
      n.testBit k = true ∧ start ≤ k ∧
        ∀ j, start ≤ j → j < k → n.testBit j = false := by
  intro fuel
  induction fuel with
  | zero =>
      intro start k h
      cases h
  | succ f ih =>
      intro start k h
      rw [bsfAux] at h
      by_cases ht : n.testBit start = true
      · rw [if_pos ht] at h
        injection h with h
        subst h
        exact ⟨ht, Nat.le_refl _, fun j hj1 hj2 => by omega⟩
      · rw [if_neg ht] at h
        obtain ⟨h1, h2, h3⟩ := ih (start + 1) k h
        refine ⟨h1, by omega, fun j hj1 hj2 => ?_⟩
        rcases Nat.eq_or_lt_of_le hj1 with rfl | hj
        · simpa using ht
        · exact h3 j (by omega) hj2

theorem bsfAux_none {n : Nat} :
    ∀ (fuel start : Nat), bsfAux n start fuel = none →
      ∀ j, start ≤ j → j < start + fuel → n.testBit j = false := by
  intro fuel
  induction fuel with
  | zero =>
      intro start h j hj1 hj2
      omega
  | succ f ih =>
      intro start h j hj1 hj2
      rw [bsfAux] at h
      by_cases ht : n.testBit start = true
      · rw [if_pos ht] at h
        cases h
      · rw [if_neg ht] at h
        rcases Nat.eq_or_lt_of_le hj1 with rfl | hj
        · simpa using ht
        · exact ih (start + 1) h j (by omega) (by omega)

theorem maskAddr_testBit_high (n j : Nat) (h : 12 ≤ j) :
    (n / 2 ^ 12 * 2 ^ 12).testBit j = n.testBit j := by
  rw [← Nat.shiftLeft_eq, Nat.testBit_shiftLeft, ← Nat.shiftRight_eq_div_pow,
    Nat.testBit_shiftRight, decide_eq_true (by omega : j ≥ 12), Bool.true_and]
  congr 1
  omega

theorem maskAddr_testBit_low (n j : Nat) (h : j < 12) :
    (n / 2 ^ 12 * 2 ^ 12).testBit j = false := by
  rw [← Nat.shiftLeft_eq, Nat.testBit_shiftLeft,
    decide_eq_false (by omega : ¬j ≥ 12), Bool.false_and]

/-- Claim C9: the cache slot of a variable MTRR whose mask valid bit
(bit 11) is set and whose mask frame portion (bits 12..63) is non-zero
records base = the base MSR's frame field shifted into an address,
length = 2 to the index of the least-significant set bit of the frame
portion within the MSR (so the index is at least 12), the base MSR's
memory-type byte, and valid; an MTRR whose mask valid bit is clear is
skipped (its slot keeps the zero record); and fillVariableMtrrsCache caches
each register slot independently. -/
theorem claim_C9 (msrs : List (Nat × Nat)) (b m : Nat) (hm : m < 2 ^ 64) :
    (∀ i, (fillVariableMtrrsCache msrs).get? i =
      (msrs.get? i).map fun p => cacheVariableMtrr p.1 p.2) ∧
    (m / 2 ^ 11 % 2 ≠ 1 → cacheVariableMtrr b m = zeroVariableMtrr) ∧
    (m / 2 ^ 11 % 2 = 1 → m / 2 ^ 12 ≠ 0 →
      ∃ k, 12 ≤ k ∧ m.testBit k = true ∧
        (∀ j, 12 ≤ j → j < k → m.testBit j = false) ∧
        cacheVariableMtrr b m =
          { baseAddress := b / 2 ^ 12 % 2 ^ 52 * 2 ^ 12, length := 2 ^ k,
            memoryType := b % 2 ^ 8, valid := true }) := by
  have hmask : m / 2 ^ 12 % 2 ^ 52 = m / 2 ^ 12 :=
    Nat.mod_eq_of_lt ((Nat.div_lt_iff_lt_mul (by norm_num)).mpr
      ((by norm_num : (2 : Nat) ^ 52 * 2 ^ 12 = 2 ^ 64).symm ▸ hm))
  refine ⟨?_, ?_, ?_⟩
  · intro i
    rw [fillVariableMtrrsCache, List.get?_eq_getElem?, List.get?_eq_getElem?,
      List.getElem?_map]
  · intro hv
    rw [cacheVariableMtrr, if_pos hv]
  · intro hv hframe
    rw [cacheVariableMtrr, if_neg (fun hcon => hcon hv), hmask]
    have hne : m / 2 ^ 12 * 2 ^ 12 ≠ 0 :=
      Nat.mul_ne_zero hframe (by norm_num)
    have hlt : m / 2 ^ 12 * 2 ^ 12 < 2 ^ 64 :=
      Nat.lt_of_le_of_lt (Nat.div_mul_le_self m (2 ^ 12)) hm
    obtain ⟨i, hti, _⟩ := Nat.exists_most_significant_bit hne
    have hi64 : i < 64 := by
      by_contra hcon
      rw [Nat.testBit_eq_false_of_lt
        (Nat.lt_of_lt_of_le hlt (Nat.pow_le_pow_right (by omega) (by omega)))] at hti
      cases hti
    cases hbsf : bsf64 (m / 2 ^ 12 * 2 ^ 12) with
    | none =>
        rw [bsfAux_none 64 0 hbsf i (by omega) (by omega)] at hti
        cases hti
    | some k =>
        obtain ⟨htk, _, hmin⟩ := bsfAux_spec 64 0 k hbsf
        have hk12 : 12 ≤ k := by
          by_contra hcon
          rw [maskAddr_testBit_low m k (by omega)] at htk
          cases htk
        refine ⟨k, hk12, ?_, ?_, ?_⟩
        · rw [← maskAddr_testBit_high m k hk12]
          exact htk
        · intro j hj1 hj2
          rw [← maskAddr_testBit_high m j hj1]
          exact hmin j (by omega) hj2
        · rfl

/-- Witness for C9: a mask MSR with valid bit 11 set and frame bit 32 set
yields a range of length 2 to the 32. -/
theorem claim_C9_witness :
    (∀ i, (fillVariableMtrrsCache [(4102, 4294969344)]).get? i =
      ([(4102, 4294969344)].get? i).map fun p => cacheVariableMtrr p.1 p.2) ∧
    ((4294969344 : Nat) / 2 ^ 11 % 2 ≠ 1 →
      cacheVariableMtrr 4102 4294969344 = zeroVariableMtrr) ∧
    ((4294969344 : Nat) / 2 ^ 11 % 2 = 1 → (4294969344 : Nat) / 2 ^ 12 ≠ 0 →
      ∃ k, 12 ≤ k ∧ (4294969344 : Nat).testBit k = true ∧
        (∀ j, 12 ≤ j → j < k → (4294969344 : Nat).testBit j = false) ∧
        cacheVariableMtrr 4102 4294969344 =
          { baseAddress := 4102 / 2 ^ 12 % 2 ^ 52 * 2 ^ 12, length := 2 ^ k,
            memoryType := 4102 % 2 ^ 8, valid := true }) :=
  claim_C9 [(4102, 4294969344)] 4102 4294969344 (by norm_num)

/-! Claim C4: install followed by remove restores the EPT state up to the
permanent page split. -/

theorem updateRegion_eq_self (ept : Nat → EPT_PdE) (ri : Nat) (e : EPT_PdE)
    (h : ept ri = e) : updateRegion ept ri e = ept := by
  funext r2
  by_cases hr : r2 = ri <;> simp [updateRegion, hr, h]

theorem get?_eq_some_getD {α : Type} [Inhabited α] (l : List α) (i : Nat)
    (h : i < l.length) : l.get? i = some (l.getD i default) := by
  rw [List.get?_eq_getElem?, List.getD_eq_getElem?_getD,
    List.getElem?_eq_getElem h]
  rfl

/-- The guest page's 4 KiB view is the identity mapping with full
permissions: the covering PD entry is either a 2 MiB leaf whose split places
the page at its own frame, or an already-split table whose 4 KiB leaf maps
the page to itself with read = write = fetch = 1.  This is the state every
page is in before its first install (initially by construction, afterwards
because remove restores it). -/
def leafIdentityFullPerm (c : Core) (g : Nat) : Prop :=
  (∃ r w x mt p, c.ept (regionIndex g) = .largePage r w x mt p ∧
    512 * p + ptIndex g = g / 2 ^ 12) ∨
  (∃ r w x pt, c.ept (regionIndex g) = .standard r w x pt ∧
    pt.length = 512 ∧
    (pt.getD (ptIndex g) default).readAccess = true ∧
    (pt.getD (ptIndex g) default).writeAccess = true ∧
    (pt.getD (ptIndex g) default).fetchAccess = true ∧
    (pt.getD (ptIndex g) default).pageFrameNumber = g / 2 ^ 12)

/-- The permanent effect install leaves behind: the PD entry covering g is
split if it was a 2 MiB leaf, consuming one arena slot; nothing else. -/
def splitAt (c : Core) (g : Nat) : Core :=
  match c.ept (regionIndex g) with
  | .largePage _ _ _ mt p =>
      { c with
        noOfUsedSplits := c.noOfUsedSplits + 1,
        ept := updateRegion c.ept (regionIndex g)
          (.standard true true true (splitPtEntries mt p)) }
  | .standard _ _ _ _ => c

theorem pteAt_eq {c : Core} {addr : Nat} {r w x : Bool} {pt : List EPT_PtE}
    (h : c.ept (regionIndex addr) = .standard r w x pt) :
    pteAt c addr = pt.get? (ptIndex addr) := by
  simp only [pteAt, h]

theorem vmCallUnmapPage_eq {c : Core} {g : Nat} {i : Nat} {c2 : Core}
    (hfind : findMappingIdx g c.changedMappings = some i)
    (hchg : EPT_changeMapping c g g true true = some c2) :
    vmCallUnmapPage c g = (.success,
      { c2 with changedMappings := c2.changedMappings.set i zeroMapping }) := by
  unfold vmCallUnmapPage
  rw [hfind, hchg]

/-- Remove applied to a state whose mapping table is m1 and whose PD entry
for g is already split: the record at the found slot is zeroed and the leaf
is rewritten to identity frame = g with full permissions. -/
theorem unmap_after_install {c1 : Core} {g i : Nat} {R W X : Bool}
    {pt1 : List EPT_PtE} {m1 : List Context_EptChangedMapping}
    (hpde1 : c1.ept (regionIndex g) = .standard R W X pt1)
    (hfind : findMappingIdx g m1 = some i) :
    vmCallUnmapPage { c1 with changedMappings := m1 } g = (.success,
      { ept := (updateRegion c1.ept (regionIndex g) (.standard R W X
          (pt1.set (ptIndex g) (changedLeaf pt1 (ptIndex g) g true true)))),
        noOfUsedSplits := c1.noOfUsedSplits,
        changedMappings := m1.set i zeroMapping }) := by
  have hpde2 : ({ c1 with changedMappings := m1 } : Core).ept (regionIndex g) =
      .standard R W X pt1 := hpde1
  have hchg2 : EPT_changeMapping { c1 with changedMappings := m1 } g g true true =
      some
        { ept := (updateRegion c1.ept (regionIndex g) (.standard R W X
            (pt1.set (ptIndex g) (changedLeaf pt1 (ptIndex g) g true true)))),
          noOfUsedSplits := c1.noOfUsedSplits,
          changedMappings := m1 } :=
    changeMapping_of_standard hpde2
  have hfind2 : findMappingIdx g
      ({ c1 with changedMappings := m1 } : Core).changedMappings = some i := hfind
  exact vmCallUnmapPage_eq hfind2 hchg2

/-- Claim C4: after a successful install(g, r, f) on a state whose leaf for
g is the identity with full permissions, remove(g) succeeds, restores the
4 KiB leaf of g to frame = g with read = write = fetch = 1, zeroes the
record it had stored, and leaves the EPT and split arena exactly as the
permanent page split of install left them (splitAt), so install followed by
remove restores the pre-install EPT state except for the split. -/
theorem claim_C4 (c : Core) (g r f : Nat) (hg : g < 2 ^ 52)
    (hid : leafIdentityFullPerm c g)
    (hs : (vmCallMapPage c g r f).1 = .success) :
    (vmCallUnmapPage (vmCallMapPage c g r f).2 g).1 = .success ∧
    (∃ mt, pteAt (vmCallUnmapPage (vmCallMapPage c g r f).2 g).2 g =
      some { readAccess := true, writeAccess := true, fetchAccess := true,
             memoryType := mt, pageFrameNumber := g / 2 ^ 12 }) ∧
    (∃ i, i < c.changedMappings.length ∧
      (vmCallUnmapPage (vmCallMapPage c g r f).2 g).2.changedMappings =
        c.changedMappings.set i zeroMapping) ∧
    (vmCallUnmapPage (vmCallMapPage c g r f).2 g).2.ept = (splitAt c g).ept ∧
    (vmCallUnmapPage (vmCallMapPage c g r f).2 g).2.noOfUsedSplits =
      (splitAt c g).noOfUsedSplits := by
  obtain ⟨hag, har, haf, hcol, i, c1, hidx, hchg, heq2⟩ := vmCallMapPage_success hs
  obtain ⟨hlt, hinv, hbef⟩ := firstInvalidIdx_spec hidx
  have hmapeq := (changeMapping_some_parts hchg).1
  have hcol2 : ∀ m ∈ c.changedMappings, m.collidesWith g r f = false := by
    intro m hm
    have := List.any_eq_false.mp hcol m hm
    simpa using this
  have hfind : findMappingIdx g (c1.changedMappings.set i
      { guestAddress := g, hostRwAddress := r, hostFetchAddress := f,
        valid := true }) = some i := by
    apply findMappingIdx_eq_some
    · rw [List.length_set, hmapeq]
      exact hlt
    · rw [getD_set_self _ _ _ _ (by rw [hmapeq]; exact hlt)]
      exact ⟨rfl, rfl⟩
    · intro j hj hcontr
      rw [getD_set_ne _ _ _ (by omega : i ≠ j), hmapeq] at hcontr
      have hmem := getD_mem c.changedMappings j default (by omega)
      exact (collidesWith_eq_false (hcol2 _ hmem) hcontr.1).1 hcontr.2
  rcases hid with ⟨r0, w0, x0, mt, p, hpde, hpind⟩ |
    ⟨r0, w0, x0, pt, hpde, hlen, her, hew, hex, hepf⟩
  · -- the PD entry of g was a 2 MiB leaf: install split it permanently
    have hsp : c.noOfUsedSplits < CONTEXT_EPT_NO_SPLITS := by
      by_contra hfull
      rw [changeMapping_of_large_full hpde (by omega)] at hchg
      cases hchg
    have hc1 := hchg
    rw [changeMapping_of_large hpde hsp] at hc1
    injection hc1 with hc1
    have hept1 : c1.ept = (updateRegion c.ept (regionIndex g)
        (.standard true true true ((splitPtEntries mt p).set (ptIndex g)
          (changedLeaf (splitPtEntries mt p) (ptIndex g) g false false)))) := by
      rw [hc1.symm]
    have hsplits1 : c1.noOfUsedSplits = c.noOfUsedSplits + 1 := by
      rw [hc1.symm]
    have hpde1 : c1.ept (regionIndex g) = .standard true true true
        ((splitPtEntries mt p).set (ptIndex g)
          (changedLeaf (splitPtEntries mt p) (ptIndex g) g false false)) := by
      rw [hept1]
      exact updateRegion_self _ _ _
    have hlen1 : ((splitPtEntries mt p).set (ptIndex g)
        (changedLeaf (splitPtEntries mt p) (ptIndex g) g false false)).length
        = 512 := by
      rw [List.length_set, splitPtEntries_length]
    have hgetD1 : ((splitPtEntries mt p).set (ptIndex g)
        (changedLeaf (splitPtEntries mt p) (ptIndex g) g false false)).getD
          (ptIndex g) default =
        changedLeaf (splitPtEntries mt p) (ptIndex g) g false false :=
      getD_set_self _ _ _ _ (by rw [splitPtEntries_length]; exact ptIndex_lt g)
    have hleaf2 : changedLeaf ((splitPtEntries mt p).set (ptIndex g)
        (changedLeaf (splitPtEntries mt p) (ptIndex g) g false false))
          (ptIndex g) g true true =
        { readAccess := true, writeAccess := true, fetchAccess := true,
          memoryType := mt, pageFrameNumber := g / 2 ^ 12 } := by
      rw [changedLeaf, hgetD1, changedLeaf,
        splitPtEntries_getD mt p _ (ptIndex_lt g), frame4KB_mod_eq hg]
    rw [heq2, unmap_after_install hpde1 hfind]
    dsimp only
    have hpF : (updateRegion c1.ept (regionIndex g) (.standard true true true
        (((splitPtEntries mt p).set (ptIndex g)
          (changedLeaf (splitPtEntries mt p) (ptIndex g) g false false)).set
            (ptIndex g)
            (changedLeaf ((splitPtEntries mt p).set (ptIndex g)
              (changedLeaf (splitPtEntries mt p) (ptIndex g) g false false))
              (ptIndex g) g true true)))) (regionIndex g) =
        EPT_PdE.standard true true true
          (((splitPtEntries mt p).set (ptIndex g)
            (changedLeaf (splitPtEntries mt p) (ptIndex g) g false false)).set
              (ptIndex g)
              (changedLeaf ((splitPtEntries mt p).set (ptIndex g)
                (changedLeaf (splitPtEntries mt p) (ptIndex g) g false false))
                (ptIndex g) g true true)) :=
      updateRegion_self _ _ _
    refine ⟨rfl, ⟨mt, ?_⟩, ⟨i, hlt, ?_⟩, ?_, ?_⟩
    · rw [pteAt_eq hpF,
        get?_set_self _ _ _ (by rw [hlen1]; exact ptIndex_lt g), hleaf2]
    · rw [List.set_set, hmapeq]
    · have hB : changedLeaf ((splitPtEntries mt p).set (ptIndex g)
          (changedLeaf (splitPtEntries mt p) (ptIndex g) g false false))
            (ptIndex g) g true true =
          (splitPtEntries mt p).getD (ptIndex g) default := by
        rw [hleaf2, splitPtEntries_getD mt p _ (ptIndex_lt g), hpind,
          frame4KB_mod_eq hg]
      rw [hept1, updateRegion_updateRegion, List.set_set, hB, set_getD_self]
      simp only [splitAt, hpde]
    · rw [hsplits1]
      simp only [splitAt, hpde]
  · -- the PD entry of g was already split: no permanent change at all
    have hc1 := hchg
    rw [changeMapping_of_standard hpde] at hc1
    injection hc1 with hc1
    have hept1 : c1.ept = (updateRegion c.ept (regionIndex g)
        (.standard r0 w0 x0 (pt.set (ptIndex g)
          (changedLeaf pt (ptIndex g) g false false)))) := by
      rw [hc1.symm]
    have hsplits1 : c1.noOfUsedSplits = c.noOfUsedSplits := by
      rw [hc1.symm]
    have hpde1 : c1.ept (regionIndex g) = .standard r0 w0 x0
        (pt.set (ptIndex g) (changedLeaf pt (ptIndex g) g false false)) := by
      rw [hept1]
      exact updateRegion_self _ _ _
    have hE0 : pt.getD (ptIndex g) default =
        { readAccess := true, writeAccess := true, fetchAccess := true,
          memoryType := (pt.getD (ptIndex g) default).memoryType,
          pageFrameNumber := g / 2 ^ 12 } := by
      rcases hE : pt.getD (ptIndex g) default with ⟨a1, a2, a3, a4, a5⟩
      rw [hE] at her hew hex hepf
      simp only at her hew hex hepf
      rw [her, hew, hex, hepf]
    have hgetD1 : (pt.set (ptIndex g)
        (changedLeaf pt (ptIndex g) g false false)).getD (ptIndex g) default =
        changedLeaf pt (ptIndex g) g false false :=
      getD_set_self _ _ _ _ (by rw [hlen]; exact ptIndex_lt g)
    have hleaf2 : changedLeaf (pt.set (ptIndex g)
        (changedLeaf pt (ptIndex g) g false false)) (ptIndex g) g true true =
        { readAccess := true, writeAccess := true, fetchAccess := true,
          memoryType := (pt.getD (ptIndex g) default).memoryType,
          pageFrameNumber := g / 2 ^ 12 } := by
      rw [changedLeaf, hgetD1, changedLeaf, frame4KB_mod_eq hg]
    rw [heq2, unmap_after_install hpde1 hfind]
    dsimp only
    have hpF : (updateRegion c1.ept (regionIndex g) (.standard r0 w0 x0
        ((pt.set (ptIndex g) (changedLeaf pt (ptIndex g) g false false)).set
          (ptIndex g)
          (changedLeaf (pt.set (ptIndex g)
            (changedLeaf pt (ptIndex g) g false false)) (ptIndex g) g true
            true)))) (regionIndex g) =
        EPT_PdE.standard r0 w0 x0
          ((pt.set (ptIndex g) (changedLeaf pt (ptIndex g) g false false)).set
            (ptIndex g)
            (changedLeaf (pt.set (ptIndex g)
              (changedLeaf pt (ptIndex g) g false false)) (ptIndex g) g true
              true)) :=
      updateRegion_self _ _ _
    refine ⟨rfl, ⟨(pt.getD (ptIndex g) default).memoryType, ?_⟩,
      ⟨i, hlt, ?_⟩, ?_, ?_⟩
    · rw [pteAt_eq hpF, get?_set_self _ _ _
        (by rw [List.length_set, hlen]; exact ptIndex_lt g), hleaf2]
    · rw [List.set_set, hmapeq]
    · have hB : changedLeaf (pt.set (ptIndex g)
          (changedLeaf pt (ptIndex g) g false false)) (ptIndex g) g true true =
          pt.getD (ptIndex g) default := by
        rw [hleaf2, hE0]
      rw [hept1, updateRegion_updateRegion, List.set_set, hB, set_getD_self,
        updateRegion_eq_self _ _ _ hpde]
      simp only [splitAt, hpde]
    · rw [hsplits1]
      simp only [splitAt, hpde]

/-- Witness for C4: install(0x1000, 0x2000, 0x3000) on the fresh identity
state followed by remove(0x1000) restores the identity leaf, modulo the
permanent split of region 0. -/
theorem claim_C4_witness :
    (vmCallUnmapPage (vmCallMapPage initialCore 4096 8192 12288).2 4096).1 =
      .success ∧
    (∃ mt, pteAt
        (vmCallUnmapPage (vmCallMapPage initialCore 4096 8192 12288).2 4096).2
        4096 =
      some { readAccess := true, writeAccess := true, fetchAccess := true,
             memoryType := mt, pageFrameNumber := 4096 / 2 ^ 12 }) ∧
    (∃ i, i < initialCore.changedMappings.length ∧
      (vmCallUnmapPage (vmCallMapPage initialCore 4096 8192 12288).2
        4096).2.changedMappings =
        initialCore.changedMappings.set i zeroMapping) ∧
    (vmCallUnmapPage (vmCallMapPage initialCore 4096 8192 12288).2
      4096).2.ept = (splitAt initialCore 4096).ept ∧
    (vmCallUnmapPage (vmCallMapPage initialCore 4096 8192 12288).2
      4096).2.noOfUsedSplits = (splitAt initialCore 4096).noOfUsedSplits :=
  claim_C4 initialCore 4096 8192 12288 (by norm_num)
    (Or.inl ⟨true, true, true, 6, 0, rfl, by decide⟩) (by decide)

end MZHV
